import Mathlib

/-!
Verification of the KTPS 10-day report dashboard (src/app.py).

The Python source is shallowly embedded: text is `List Char`, Python floats
are modelled as rationals `ℚ`, `None` as `Option.none`, and Python code that
may raise an exception is modelled in `Except Unit`.  The regular expressions
of the source are compiled, token by token, to a small backtracking matcher
(`mtch`) with Python `re` semantics: leftmost match, greedy and lazy
quantifiers (every quantifier in the source ranges over a single-character
class), capture groups, and the end anchor.  External collaborators (the
docx text extractor, pandas CSV/JSON rendering, the Streamlit widgets,
gspread) are abstracted at their interfaces, as §1 of the spec directs.
-/

namespace KTPS

/-- The ASCII whitespace characters of Python `\s` and `str.strip()`. -/
def isPySpace (c : Char) : Bool :=
  c = ' ' || c = '\t' || c = '\n' || c = '\r' || c = '\x0b' || c = '\x0c'

/-- Python `str.lower()` on ASCII text. -/
def toLowerL (s : List Char) : List Char := s.map Char.toLower

/-- Python substring containment `needle in hay`. -/
def strIn (needle hay : List Char) : Bool :=
  hay.tails.any (fun t => needle.isPrefixOf t)

/-- Python `str.strip()`: remove leading and trailing whitespace. -/
def pstrip (s : List Char) : List Char :=
  ((s.dropWhile isPySpace).reverse.dropWhile isPySpace).reverse

/-- Split on newline characters, keeping empty segments. -/
def splitOnNL : List Char → List (List Char)
  | [] => [[]]
  | c :: rest =>
    if c = '\n' then [] :: splitOnNL rest
    else
      match splitOnNL rest with
      | [] => [[c]]
      | l :: ls => (c :: l) :: ls

/-- Python `str.splitlines()` for newline-separated text: like splitting on
the newline character but without a trailing empty line. -/
def pySplitlines (s : List Char) : List (List Char) :=
  if s = [] then []
  else
    let ps := splitOnNL s
    if ps.getLast? = some [] then ps.dropLast else ps

/-- Python `str.replace(",", "")`. -/
def stripCommas (s : List Char) : List Char := s.filter (fun c => !(c = ','))

/-- The natural number denoted by a list of decimal digits. -/
def digitsVal (ds : List Char) : ℕ :=
  ds.foldl (fun a c => a * 10 + (c.toNat - 48)) 0

/-- The rational denoted by an integer part, a fraction part and a sign:
the scaled mantissa over the power of ten, i.e. the value
sign times (ip + fp / 10 ^ length fp).  Built with mkRat so that concrete
values reduce definitionally. -/
def decVal (neg : Bool) (ip fp : List Char) : ℚ :=
  let m : ℕ := digitsVal ip * 10 ^ fp.length + digitsVal fp
  mkRat (if neg then -(m : ℤ) else (m : ℤ)) (10 ^ fp.length)

/-- The sign step of the Python float grammar: an optional leading minus or
plus, the rest being the unsigned body. -/
def pySign (s : List Char) : Bool × List Char :=
  match s with
  | [] => (false, [])
  | c :: r => if c = '-' then (true, r) else if c = '+' then (false, r) else (false, c :: r)

/-- The unsigned part of the Python float grammar: an integer part, an
optional point and fraction part, with at least one digit overall and
nothing else. -/
def pyFloatOfBody (neg : Bool) (body : List Char) : Option ℚ :=
  let ip := body.takeWhile Char.isDigit
  let r1 := body.dropWhile Char.isDigit
  match r1 with
  | [] => if ip.isEmpty then none else some (decVal neg ip [])
  | c :: r2 =>
    if c = '.' then
      let fp := r2.takeWhile Char.isDigit
      if !(r2.dropWhile Char.isDigit).isEmpty then none
      else if ip.isEmpty && fp.isEmpty then none
      else some (decVal neg ip fp)
    else none

/-- Model of Python `float(s)` on the decimal fragment of its grammar.
Returns `none` exactly when Python `float` raises `ValueError` (e.g. on
`"1.2.3"` or `"."`). -/
def pyFloat? (s : List Char) : Option ℚ :=
  pyFloatOfBody (pySign s).1 (pySign s).2

/-- Python `float(s)` as a possibly-raising computation. -/
def pyFloatE (s : List Char) : Except Unit ℚ :=
  match pyFloat? s with
  | some q => .ok q
  | none => .error ()

/-- The maximal-munch body of one match of `-?\d+[\d,]*\.?\d*` whose first
character is a digit: digits, then digits or commas, then an optional point
followed by digits.  This is exactly the greedy behaviour of that pattern,
whose parts after `\d+` are all nullable, so no backtracking can occur. -/
def grabNum (cs : List Char) : List Char :=
  let ds := cs.takeWhile Char.isDigit
  let r1 := cs.dropWhile Char.isDigit
  let mids := r1.takeWhile (fun c => c.isDigit || c = ',')
  let r2 := r1.dropWhile (fun c => c.isDigit || c = ',')
  match r2 with
  | c :: r3 =>
    if c = '.' then ds ++ mids ++ '.' :: r3.takeWhile Char.isDigit else ds ++ mids
  | [] => ds ++ mids

/-- Leftmost match of `re.search(r"-?\d+[\d,]*\.?\d*", s)` (the matched
text).  A match starts at the first digit, or at a minus sign immediately
followed by a digit. -/
def firstNumTok : List Char → Option (List Char)
  | [] => none
  | c :: rest =>
    if c.isDigit then some (grabNum (c :: rest))
    else if c = '-' && (match rest with | d :: _ => d.isDigit | [] => false) then
      some ('-' :: grabNum rest)
    else firstNumTok rest

/-- One step of `re.findall(r"-?\d+[\d,]*\.?\d*", s)`: all matches, scanning
left to right, continuing after the end of each match.  Fuel-driven; the
initial fuel `s.length` suffices because every step consumes a character. -/
def numToksAux : ℕ → List Char → List (List Char)
  | 0, _ => []
  | _, [] => []
  | fuel + 1, c :: rest =>
    if c.isDigit then
      let tok := grabNum (c :: rest)
      tok :: numToksAux fuel ((c :: rest).drop tok.length)
    else if c = '-' && (match rest with | d :: _ => d.isDigit | [] => false) then
      let tok := '-' :: grabNum rest
      tok :: numToksAux fuel ((c :: rest).drop tok.length)
    else numToksAux fuel rest

/-- Python `re.findall(r"-?\d+[\d,]*\.?\d*", s)`. -/
def numToksOf (s : List Char) : List (List Char) := numToksAux s.length s

/-- Association-list lookup (first binding wins). -/
def alook {κ α : Type} [DecidableEq κ] : List (κ × α) → κ → Option α
  | [], _ => none
  | (k, v) :: r, q => if k = q then some v else alook r q

/-! ## A small backtracking regex engine

Each regular expression of the source is compiled to a `List Tok`.  Every
quantifier in the source applies to a single-character class, so `Tok` only
needs single-character items, their `?`, `*` (greedy or lazy) forms, capture
group markers and the end anchor.  `CC` is the closed set of character
classes appearing in the source's patterns. -/

/-- Character classes of the source's regular expressions: digit is d or 0-9;
digitComma is the class of d and comma; digitDot the class of d and point;
numFall the class 0-9 point comma space dash of the variable-charge fallback
patterns; dotSpace the class point space; colonSpace the class colon and
whitespace; spaceC whitespace; dashC hyphen or en-dash; wordOr is the word
class extended by extra characters; dotNL is the dot without DOTALL; dotAll
the dot under DOTALL; lit a literal character; litCI a literal character
under IGNORECASE. -/
inductive CC where
  | digit : CC
  | digitComma : CC
  | digitDot : CC
  | numFall : CC
  | dotSpace : CC
  | colonSpace : CC
  | spaceC : CC
  | dashC : CC
  | wordOr (extra : List Char) : CC
  | dotNL : CC
  | dotAll : CC
  | lit (c : Char) : CC
  | litCI (c : Char) : CC
deriving DecidableEq

/-- Whether a character belongs to a class. -/
def CC.test : CC → Char → Bool
  | .digit, c => c.isDigit
  | .digitComma, c => c.isDigit || c = ','
  | .digitDot, c => c.isDigit || c = '.'
  | .numFall, c => c.isDigit || c = '.' || c = ',' || c = ' ' || c = '-'
  | .dotSpace, c => c = '.' || c = ' '
  | .colonSpace, c => c = ':' || isPySpace c
  | .spaceC, c => isPySpace c
  | .dashC, c => c = '-' || c = '–'
  | .wordOr extra, c => c.isAlphanum || c = '_' || extra.contains c
  | .dotNL, c => !(c = '\n')
  | .dotAll, _ => true
  | .lit a, c => c = a
  | .litCI a, c => c.toLower = a.toLower

/-- Pattern tokens: one character of a class; an optional character (greedy,
as everywhere in the source); a starred class with a greediness flag (a plus
is compiled as one followed by star); capture-group opening and closing
markers; and the end anchor without MULTILINE (end of text or just before a
final newline). -/
inductive Tok where
  | one (cc : CC) : Tok
  | opt (cc : CC) : Tok
  | star (cc : CC) (greedy : Bool) : Tok
  | gopen (n : ℕ) : Tok
  | gclose (n : ℕ) : Tok
  | endA : Tok
deriving DecidableEq

/-- Captured group values: group number paired with the captured characters. -/
abbrev Caps := List (ℕ × List Char)

/-- The backtracking matcher.  `mtch p rest os caps` tries to match pattern
`p` at the start of `rest` (with `os` the currently open groups — each
holding the remaining text at its opening — and `caps` the closed captures)
and returns the text remaining after the match together with the captures,
exploring alternatives in Python `re` priority order. -/
def mtch : List Tok → List Char → Caps → Caps → Option (List Char × Caps)
  | [], rest, _, caps => some (rest, caps)
  | .one cc :: ts, rest, os, caps =>
    match rest with
    | [] => none
    | c :: r => if cc.test c then mtch ts r os caps else none
  | .opt cc :: ts, rest, os, caps =>
    match rest with
    | c :: r =>
      if cc.test c then Option.orElse (mtch ts r os caps) (fun _ => mtch ts rest os caps)
      else mtch ts rest os caps
    | [] => mtch ts rest os caps
  | .star cc greedy :: ts, rest, os, caps =>
    let k := (rest.takeWhile cc.test).length
    let js := if greedy then (List.range (k + 1)).reverse else List.range (k + 1)
    js.findSome? (fun j => mtch ts (rest.drop j) os caps)
  | .gopen n :: ts, rest, os, caps => mtch ts rest ((n, rest) :: os) caps
  | .gclose n :: ts, rest, os, caps =>
    match alook os n with
    | some ro => mtch ts rest os ((n, ro.take (ro.length - rest.length)) :: caps)
    | none => none
  | .endA :: ts, rest, os, caps =>
    if rest = [] ∨ rest = ['\n'] then mtch ts rest os caps else none

/-- Python `re.search`: try the pattern at every position, leftmost first.
Returns the match's start index, the text remaining after it, and the
captured groups. -/
def rsearch (p : List Tok) (cs : List Char) : Option (ℕ × List Char × Caps) :=
  (List.range (cs.length + 1)).findSome? (fun i =>
    (mtch p (cs.drop i) [] []).map (fun r => (i, r.1, r.2)))

/-- The text of the whole match (`m.group()`), reconstructed from the start
index and the remainder returned by `rsearch`. -/
def matchSlice (cs : List Char) (i : ℕ) (restAfter : List Char) : List Char :=
  (cs.drop i).take ((cs.drop i).length - restAfter.length)

/-- One scan of `re.finditer`: successive non-overlapping leftmost matches,
each search resuming after the previous match.  Fuel-driven; the source's
pattern cannot match the empty string, so `cs.length + 1` fuel suffices. -/
def rfindIterAux (p : List Tok) : ℕ → List Char → List Caps
  | 0, _ => []
  | fuel + 1, cs =>
    match rsearch p cs with
    | none => []
    | some (i, restAfter, caps) =>
      let mlen := (cs.length - i) - restAfter.length
      caps :: rfindIterAux p fuel (if mlen = 0 then restAfter.drop 1 else restAfter)

/-- Python `re.finditer`, returning each match's captures in order. -/
def rfindIter (p : List Tok) (cs : List Char) : List Caps :=
  rfindIterAux p (cs.length + 1) cs

/-- Compile a literal string under `re.IGNORECASE`. -/
def lits (s : String) : List Tok := s.toList.map (fun c => Tok.one (CC.litCI c))

/-- The token run of `-?\d+[\d,]*\.?\d*`. -/
def numRun : List Tok :=
  [Tok.opt (CC.lit '-'), Tok.one CC.digit, Tok.star CC.digit true,
   Tok.star CC.digitComma true, Tok.opt (CC.lit '.'), Tok.star CC.digit true]

/-! ## The compiled patterns of src/app.py -/

/-- Pattern of app.py line 82 (fallback for the MERC variable charge):
variable charge dot-star merc dot-star rs slash-opt kwh colon-space-star
followed by the captured run of numFall characters, under IGNORECASE. -/
def patVCmerc : List Tok :=
  lits "variable charge" ++ [Tok.star CC.dotNL true] ++ lits "merc" ++
  [Tok.star CC.dotNL true] ++ lits "rs" ++ [Tok.opt (CC.lit '/')] ++ lits "kwh" ++
  [Tok.star CC.colonSpace true, Tok.gopen 1, Tok.one CC.numFall,
   Tok.star CC.numFall true, Tok.gclose 1]

/-- Pattern of app.py line 84 (fallback for the recoverable variable charge). -/
def patVCrecov : List Tok :=
  lits "variable charge" ++ [Tok.star CC.dotNL true] ++ lits "recoverable" ++
  [Tok.star CC.dotNL true] ++ lits "rs" ++ [Tok.opt (CC.lit '/')] ++ lits "kwh" ++
  [Tok.star CC.colonSpace true, Tok.gopen 1, Tok.one CC.numFall,
   Tok.star CC.numFall true, Tok.gclose 1]

/-- First pattern of app.py line 86 (fallback for the actual variable charge). -/
def patVCactualA : List Tok :=
  lits "variable charge" ++ [Tok.star CC.dotNL true] ++ lits "actual" ++
  [Tok.star CC.dotNL true] ++ lits "rs" ++ [Tok.opt (CC.lit '/')] ++ lits "kwh" ++
  [Tok.star CC.colonSpace true, Tok.gopen 1, Tok.one CC.numFall,
   Tok.star CC.numFall true, Tok.gclose 1]

/-- Second pattern of app.py line 86. -/
def patVCactualB : List Tok :=
  lits "actual energy charge" ++ [Tok.star CC.dotNL true] ++ lits "rs" ++
  [Tok.opt (CC.lit '/')] ++ lits "kwh" ++
  [Tok.star CC.colonSpace true, Tok.gopen 1, Tok.one CC.numFall,
   Tok.star CC.numFall true, Tok.gclose 1]

/-- The part of the disallowance fallback pattern (app.py line 88) before its
capture group: disallowance space-star rs dot-space-star cr colon-space-star. -/
def patDisallowPre : List Tok :=
  lits "disallowance" ++ [Tok.star CC.spaceC true] ++ lits "rs" ++
  [Tok.star CC.dotSpace true] ++ lits "cr" ++ [Tok.star CC.colonSpace true]

/-- Pattern of app.py line 88, whose group 1 is the signed-number run. -/
def patDisallow : List Tok :=
  patDisallowPre ++ Tok.gopen 1 :: (numRun ++ Tok.gclose 1 :: ([] : List Tok))

/-- Pattern of app.py line 94 under IGNORECASE and DOTALL: sp coal
consumption dot-star allowable dot-star actual lazy-dot-star then two
captured runs of digitDot characters separated by a lazy dot-star. -/
def patSpPrimary : List Tok :=
  lits "sp coal consumption" ++ [Tok.star CC.dotAll true] ++ lits "allowable" ++
  [Tok.star CC.dotAll true] ++ lits "actual" ++ [Tok.star CC.dotAll false] ++
  [Tok.gopen 1, Tok.one CC.digitDot, Tok.star CC.digitDot true, Tok.gclose 1] ++
  [Tok.star CC.dotAll false] ++
  [Tok.gopen 2, Tok.one CC.digitDot, Tok.star CC.digitDot true, Tok.gclose 2]

/-- First allowable fallback pattern of app.py line 97. -/
def patAllowA : List Tok :=
  lits "allowable" ++ [Tok.star CC.dotNL true] ++ lits "norm" ++
  [Tok.star CC.colonSpace true, Tok.gopen 1, Tok.one CC.digitDot,
   Tok.star CC.digitDot true, Tok.gclose 1]

/-- Second allowable fallback pattern of app.py line 97. -/
def patAllowB : List Tok :=
  lits "allowable as per merc norm" ++
  [Tok.star CC.colonSpace true, Tok.gopen 1, Tok.one CC.digitDot,
   Tok.star CC.digitDot true, Tok.gclose 1]

/-- First actual fallback pattern of app.py line 98, with the end anchor. -/
def patActualA : List Tok :=
  lits "actual" ++
  [Tok.star CC.colonSpace true, Tok.gopen 1, Tok.one CC.digit, Tok.one (CC.lit '.'),
   Tok.one CC.digit, Tok.star CC.digit true, Tok.gclose 1, Tok.star CC.spaceC true,
   Tok.endA]

/-- Second actual fallback pattern of app.py line 98. -/
def patActualB : List Tok :=
  lits "actual" ++
  [Tok.star CC.colonSpace true, Tok.gopen 1, Tok.one CC.digit, Tok.one (CC.lit '.'),
   Tok.one CC.digit, Tok.star CC.digit true, Tok.gclose 1]

/-- The word class of the reasons title group: word characters, space,
hyphen, slash, parentheses and ampersand. -/
def titleC : CC := CC.wordOr [' ', '-', '/', '(', ')', '&']

/-- The part of the reasons primary pattern (app.py line 126) before the
amount group: the lazily captured title, whitespace, the word loss (the
Loss-or-loss alternation is a case-insensitive literal under IGNORECASE),
whitespace, a hyphen or en-dash, whitespace. -/
def patReasonPre : List Tok :=
  [Tok.gopen 1, Tok.one titleC, Tok.star titleC false, Tok.gclose 1,
   Tok.star CC.spaceC true] ++ lits "loss" ++
  [Tok.star CC.spaceC true, Tok.one CC.dashC, Tok.star CC.spaceC true]

/-- The part of the reasons primary pattern after the amount group:
whitespace then rs point-opt cr. -/
def patReasonPost : List Tok :=
  [Tok.star CC.spaceC true] ++ lits "rs" ++ [Tok.opt (CC.lit '.')] ++ lits "cr"

/-- The full reasons primary pattern of app.py line 126; its group 2 is the
signed-number amount run. -/
def patReasonPrimary : List Tok :=
  patReasonPre ++ Tok.gopen 2 :: (numRun ++ Tok.gclose 2 :: patReasonPost)

/-- The secondary reasons pattern of app.py line 133 for a canonical label:
the label literally (each label contains no regex metacharacters), a lazy
dot-star under DOTALL, then the captured signed-number run. -/
def patFR (fr : List Char) : List Tok :=
  fr.map (fun c => Tok.one (CC.litCI c)) ++ [Tok.star CC.dotAll false] ++
  Tok.gopen 1 :: (numRun ++ Tok.gclose 1 :: ([] : List Tok))

/-! ## The field extractors of src/app.py -/

/-- Result of parse_variable_charge (app.py lines 59 to 91). -/
structure VC where
  merc_order : Option ℚ
  recoverable_mod : Option ℚ
  actual : Option ℚ
  disallowance_rs_cr : Option ℚ
  unrecoverable_rpkwh : Option ℚ
deriving DecidableEq

/-- One guarded assignment of the line loop of parse_variable_charge: when
the keyword condition holds and the line has a first number token, convert it
(a conversion that Python would let raise) and assign; otherwise keep the
old value. -/
def setNum (cond : Bool) (line : List Char) (old : Option ℚ) : Except Unit (Option ℚ) :=
  if cond then
    match firstNumTok line with
    | some tok => (pyFloatE (stripCommas tok)).map some
    | none => .ok old
  else .ok old

/-- The keyword condition of app.py line 65 on a lowercased line. -/
def vcCondMerc (low : List Char) : Bool :=
  strIn ("variable charge".toList) low && strIn ("merc".toList) low

/-- The keyword condition of app.py line 68. -/
def vcCondRecov (low : List Char) : Bool :=
  strIn ("variable charge (recoverable".toList) low ||
  (strIn ("recoverable".toList) low && strIn ("mod".toList) low)

/-- The keyword condition of app.py line 71. -/
def vcCondActual (low : List Char) : Bool :=
  strIn ("variable charge (actual".toList) low ||
  strIn ("actual energy charge".toList) low

/-- The keyword condition of app.py line 74. -/
def vcCondDis (low : List Char) : Bool :=
  strIn ("disallowance".toList) low && strIn ("rs".toList) low

/-- The keyword condition of app.py line 77. -/
def vcCondUnrec (low : List Char) : Bool :=
  strIn ("unrecoverable".toList) low

/-- One iteration of the line loop of parse_variable_charge (app.py lines
63 to 79): each of the five keyword conditions is tested on the lowercased
line and each match overwrites its field with the line's first number. -/
def vcLineStep (vc : VC) (line : List Char) : Except Unit VC := do
  let low := toLowerL line
  let m ← setNum (vcCondMerc low) line vc.merc_order
  let r ← setNum (vcCondRecov low) line vc.recoverable_mod
  let a ← setNum (vcCondActual low) line vc.actual
  let d ← setNum (vcCondDis low) line vc.disallowance_rs_cr
  let u ← setNum (vcCondUnrec low) line vc.unrecoverable_rpkwh
  pure ⟨m, r, a, d, u⟩

/-- The all-none initial value of the variable-charge record. -/
def vc0 : VC := ⟨none, none, none, none, none⟩

/-- find_first_float of app.py lines 50 to 57: search each pattern in turn;
on a match, extract the first number token of the whole matched text and
convert it (stripping commas); if a matched text has no number token, fall
through to the next pattern; with no pattern left, return none. -/
def find_first_float : List (List Tok) → List Char → Except Unit (Option ℚ)
  | [], _ => .ok none
  | pat :: pats, text =>
    match rsearch pat text with
    | some (i, restAfter, _) =>
      match firstNumTok (matchSlice text i restAfter) with
      | some tok => (pyFloatE (stripCommas tok)).map some
      | none => find_first_float pats text
    | none => find_first_float pats text

/-- parse_variable_charge of app.py lines 59 to 91: the line loop, then for
each still-none field its fallback whole-text search (the unrecoverable
field has no fallback). -/
def parse_variable_charge (text : List Char) : Except Unit VC :=
  ((pySplitlines text).foldlM vcLineStep vc0) >>= fun vc =>
  (match vc.merc_order with
   | some v => pure (some v)
   | none => find_first_float [patVCmerc] text) >>= fun m =>
  (match vc.recoverable_mod with
   | some v => pure (some v)
   | none => find_first_float [patVCrecov] text) >>= fun r =>
  (match vc.actual with
   | some v => pure (some v)
   | none => find_first_float [patVCactualA, patVCactualB] text) >>= fun a =>
  (match vc.disallowance_rs_cr with
   | some v => pure (some v)
   | none =>
     match rsearch patDisallow text with
     | some (_, _, caps) =>
       match alook caps 1 with
       | some g1 => (pyFloatE (stripCommas g1)).map some
       | none => pure none
     | none => pure none) >>= fun d =>
  pure ⟨m, r, a, d, vc.unrecoverable_rpkwh⟩

/-- Result of parse_sp_coal (app.py lines 93 to 99). -/
structure SpCoal where
  allowable : Option ℚ
  actual : Option ℚ
deriving DecidableEq

/-- parse_sp_coal of app.py lines 93 to 99: the combined pattern first, whose
two captures are converted by float with no try-except (so a capture such as
1.2.3 raises), else the keyword fallbacks through find_first_float. -/
def parse_sp_coal (text : List Char) : Except Unit SpCoal :=
  match rsearch patSpPrimary text with
  | some (_, _, caps) => do
    let a ← pyFloatE ((alook caps 1).getD [])
    let b ← pyFloatE ((alook caps 2).getD [])
    pure ⟨some a, some b⟩
  | none => do
    let allow ← find_first_float [patAllowA, patAllowB] text
    let act ← find_first_float [patActualA, patActualB] text
    pure ⟨allow, act⟩

/-- One coal-source row (app.py line 121). -/
structure CoalSrc where
  name : List Char
  GCV_ARB : Option ℚ
  Landed_RsPerMT : Option ℚ
  Eff_RsPerMkcal : Option ℚ
  Pct_share : Option ℚ
deriving DecidableEq

/-- The character class of the name-stripping substitution of app.py line
113: hyphen, digits, point, comma, pipe, tab, space. -/
def isRowStripChar (c : Char) : Bool :=
  c = '-' || c.isDigit || c = '.' || c = ',' || c = '|' || c = '\t' || c = ' '

/-- Replace each maximal run of name-stripping characters by one space
(re.sub with a plus-quantified class). -/
def subRunsAux : List Char → Bool → List Char
  | [], _ => []
  | c :: cs, inRun =>
    if isRowStripChar c then
      if inRun then subRunsAux cs true else ' ' :: subRunsAux cs true
    else c :: subRunsAux cs false

/-- The substitution of app.py line 113. -/
def subRuns (l : List Char) : List Char := subRunsAux l false

/-- Conversion of the i-th number token of a row (app.py lines 115 to 118):
absent positions are none without conversion; present tokens are converted
by float after comma stripping, which Python would let raise inside the
row's try block. -/
def convNum (nums : List (List Char)) (i : ℕ) : Except Unit (Option ℚ) :=
  match nums.get? i with
  | some tok => (pyFloatE (stripCommas tok)).map some
  | none => .ok none

/-- One data row of parse_coal_sources (app.py lines 111 to 121): all number
tokens, the stripped name, and the four positional conversions guarded by
the try-except that nulls all four fields on any conversion failure. -/
def parseRow (l : List Char) : CoalSrc :=
  let nums := numToksOf l
  let name := pstrip (subRuns l)
  match (do
    let g ← convNum nums 0
    let la ← convNum nums 1
    let e ← convNum nums 2
    let p ← convNum nums 3
    pure (g, la, e, p) : Except Unit (Option ℚ × Option ℚ × Option ℚ × Option ℚ)) with
  | .ok (g, la, e, p) => ⟨name, g, la, e, p⟩
  | .error _ => ⟨name, none, none, none, none⟩

/-- The header test of app.py line 106: the line contains coal source (the
regex there is a literal, hence a case-insensitive substring test) together
with gcv or landed cost. -/
def csHeaderLine (l : List Char) : Bool :=
  strIn ("coal source".toList) (toLowerL l) &&
  (strIn ("gcv".toList) (toLowerL l) || strIn ("landed cost".toList) (toLowerL l))

/-- The loop of app.py lines 105 to 108: the index of the first header
line. -/
def findHeaderIdx : List (List Char) → Option ℕ
  | [] => none
  | l :: ls =>
    if csHeaderLine l then some 0 else (findHeaderIdx ls).map (fun i => i + 1)

/-- parse_coal_sources of app.py lines 101 to 122: find the header line,
then parse at most 200 following lines, stopping at the first blank one. -/
def parse_coal_sources (text : List Char) : List CoalSrc :=
  let lines := pySplitlines text
  match findHeaderIdx lines with
  | some idx =>
    ((((lines.drop (idx + 1)).take 200).takeWhile
      (fun l => !(pstrip l).isEmpty)).map parseRow)
  | none => []

/-- One reasons-breakup entry (app.py line 129). -/
structure Reason where
  reason : List Char
  amount_rs_cr : Option ℚ
deriving DecidableEq

/-- The primary pass of parse_reasons_breakup (app.py lines 126 to 129):
every match of the primary pattern yields an entry with the stripped title
and the converted amount. -/
def primaryReasons (text : List Char) : Except Unit (List Reason) :=
  (rfindIter patReasonPrimary text).mapM (fun caps => do
    let amt ← pyFloatE (stripCommas ((alook caps 2).getD []))
    pure (⟨pstrip ((alook caps 1).getD []), some amt⟩ : Reason))

/-- The canonical fallback labels of app.py line 130. -/
def fallback_reasons : List (List Char) :=
  ["Diff in LEQ & ARB GCV".toList, "Stack loss".toList,
   "Plant / O&M /Other losses".toList, "Sp Oil Consn".toList,
   "Aux power consn".toList]

/-- One iteration of the secondary pass (app.py lines 131 to 135): add an
entry for the canonical label when it occurs in the text and is not a
case-insensitive substring of any already-collected entry's reason. -/
def secStep (text : List Char) (rs : List Reason) (fr : List Char) :
    Except Unit (List Reason) :=
  if strIn (toLowerL fr) (toLowerL text) &&
     !(rs.any (fun r => strIn (toLowerL fr) (toLowerL r.reason))) then
    match rsearch (patFR fr) text with
    | some (_, _, caps) => do
      let amt ← pyFloatE (stripCommas ((alook caps 1).getD []))
      pure (rs ++ [(⟨fr, some amt⟩ : Reason)])
    | none => pure (rs ++ [(⟨fr, none⟩ : Reason)])
  else pure rs

/-- parse_reasons_breakup of app.py lines 124 to 136. -/
def parse_reasons_breakup (text : List Char) : Except Unit (List Reason) := do
  let prim ← primaryReasons text
  fallback_reasons.foldlM (secStep text) prim

/-! ## The record model, the review form and the save block -/

/-- A calendar date (the report_date picked in the review form, stored in
ISO form and parsed back by pandas to_datetime). -/
structure Date where
  y : ℕ
  m : ℕ
  d : ℕ
deriving DecidableEq

/-- The record built in the save block of app.py lines 225 to 241.  All its
numeric fields are plain numbers because they come from the number_input
widgets; the two sub-tables are kept structurally. -/
structure Record where
  station : List Char
  period_label : List Char
  report_date : Date
  vc_merc_order : ℚ
  vc_recoverable_mod : ℚ
  vc_actual : ℚ
  vc_unrecoverable_rpkwh : ℚ
  fuel_cost_disallowance_rs_cr : ℚ
  sp_coal_allowable : ℚ
  sp_coal_actual : ℚ
  aux_power_pct : ℚ
  sp_oil_ml_per_kwh : ℚ
  coal_sources : List CoalSrc
  reasons_breakup : List Reason
  raw_text_excerpt : List Char
deriving DecidableEq

/-- The review-form default of app.py lines 194 to 202: float(v or 0.0),
which maps an absent extraction (and a zero one) to 0.0. -/
def pyOrZero (o : Option ℚ) : ℚ :=
  match o with
  | none => 0
  | some x => if x = 0 then 0 else x

/-- The draft record produced by uploading a document with the given
extracted text and saving without manual edits: the number_input widgets
hold the review defaults (app.py lines 194 to 205), and the record of the
save block (lines 225 to 241) is built from them.  The human-review step is
the identity here, as the spec's data flow puts it out of scope. -/
def build_record (text : List Char) (station period : List Char) (date : Date) :
    Except Unit Record := do
  let vc ← parse_variable_charge text
  let sp ← parse_sp_coal text
  let cs := parse_coal_sources text
  let rs ← parse_reasons_breakup text
  pure
    { station := station
      period_label := period
      report_date := date
      vc_merc_order := pyOrZero vc.merc_order
      vc_recoverable_mod := pyOrZero vc.recoverable_mod
      vc_actual := pyOrZero vc.actual
      vc_unrecoverable_rpkwh := pyOrZero vc.unrecoverable_rpkwh
      fuel_cost_disallowance_rs_cr := pyOrZero vc.disallowance_rs_cr
      sp_coal_allowable := pyOrZero sp.allowable
      sp_coal_actual := pyOrZero sp.actual
      aux_power_pct := 0
      sp_oil_ml_per_kwh := 0
      coal_sources := cs
      reasons_breakup := rs
      raw_text_excerpt := text.take 1200 }

/-! ## The append-only store

The sub-tables are serialized by to_json(orient records) and parsed back by
pd.read_json.  The textual rendering of numbers is pandas' (an external
collaborator); the structured content of the serialized form is modelled by
a JSON value tree. -/

/-- A JSON scalar as stored in a serialized sub-table cell. -/
inductive JVal where
  | null : JVal
  | num (q : ℚ) : JVal
  | str (s : List Char) : JVal
deriving DecidableEq

/-- A nullable number as a JSON scalar. -/
def jopt : Option ℚ → JVal
  | none => .null
  | some q => .num q

/-- Read a nullable number back from a JSON scalar. -/
def jnum? : JVal → Option (Option ℚ)
  | .null => some none
  | .num q => some (some q)
  | .str _ => none

/-- Serialization of one coal-source row by to_json(orient records). -/
def encCS (c : CoalSrc) : List (List Char × JVal) :=
  [("name".toList, .str c.name), ("GCV_ARB".toList, jopt c.GCV_ARB),
   ("Landed_RsPerMT".toList, jopt c.Landed_RsPerMT),
   ("Eff_RsPerMkcal".toList, jopt c.Eff_RsPerMkcal),
   ("Pct_share".toList, jopt c.Pct_share)]

/-- Option-valued traversal of a list, failing when any element fails. -/
def mapMO {α β : Type} (f : α → Option β) : List α → Option (List β)
  | [] => some []
  | x :: xs => do
    let y ← f x
    let ys ← mapMO f xs
    pure (y :: ys)

/-- Deserialization of one coal-source row by pd.read_json. -/
def decCS (kvs : List (List Char × JVal)) : Option CoalSrc := do
  let nv ← alook kvs ("name".toList)
  let name ← match nv with | .str s => some s | _ => none
  let g ← (alook kvs ("GCV_ARB".toList)).bind jnum?
  let la ← (alook kvs ("Landed_RsPerMT".toList)).bind jnum?
  let e ← (alook kvs ("Eff_RsPerMkcal".toList)).bind jnum?
  let p ← (alook kvs ("Pct_share".toList)).bind jnum?
  pure ⟨name, g, la, e, p⟩

/-- Serialization of one reasons row. -/
def encReason (r : Reason) : List (List Char × JVal) :=
  [("reason".toList, .str r.reason), ("amount_rs_cr".toList, jopt r.amount_rs_cr)]

/-- Deserialization of one reasons row. -/
def decReason (kvs : List (List Char × JVal)) : Option Reason := do
  let rv ← alook kvs ("reason".toList)
  let rn ← match rv with | .str s => some s | _ => none
  let a ← (alook kvs ("amount_rs_cr".toList)).bind jnum?
  pure ⟨rn, a⟩

/-- One row of the local CSV store.  The numeric cells are nullable because
a CSV cell may be empty when read back (pandas yields NaN there); a row
written by the save block always fills them. -/
structure StoreRow where
  station : List Char
  period_label : List Char
  report_date : Date
  vc_merc_order : Option ℚ
  vc_recoverable_mod : Option ℚ
  vc_actual : Option ℚ
  vc_unrecoverable_rpkwh : Option ℚ
  fuel_cost_disallowance_rs_cr : Option ℚ
  sp_coal_allowable : Option ℚ
  sp_coal_actual : Option ℚ
  aux_power_pct : Option ℚ
  sp_oil_ml_per_kwh : Option ℚ
  coal_sources : List (List (List Char × JVal))
  reasons_breakup : List (List (List Char × JVal))
  raw_text_excerpt : List Char
deriving DecidableEq

/-- The CSV row written for a record (app.py lines 238 to 239 serialize the
sub-tables, line 251 makes the one-row frame). -/
def encodeStored (r : Record) : StoreRow :=
  { station := r.station
    period_label := r.period_label
    report_date := r.report_date
    vc_merc_order := some r.vc_merc_order
    vc_recoverable_mod := some r.vc_recoverable_mod
    vc_actual := some r.vc_actual
    vc_unrecoverable_rpkwh := some r.vc_unrecoverable_rpkwh
    fuel_cost_disallowance_rs_cr := some r.fuel_cost_disallowance_rs_cr
    sp_coal_allowable := some r.sp_coal_allowable
    sp_coal_actual := some r.sp_coal_actual
    aux_power_pct := some r.aux_power_pct
    sp_oil_ml_per_kwh := some r.sp_oil_ml_per_kwh
    coal_sources := r.coal_sources.map encCS
    reasons_breakup := r.reasons_breakup.map encReason
    raw_text_excerpt := r.raw_text_excerpt }

/-- Reading one stored row back into a full record, deserializing the
sub-tables. -/
def decodeStored (sr : StoreRow) : Option Record := do
  let m ← sr.vc_merc_order
  let rcv ← sr.vc_recoverable_mod
  let a ← sr.vc_actual
  let u ← sr.vc_unrecoverable_rpkwh
  let dis ← sr.fuel_cost_disallowance_rs_cr
  let spa ← sr.sp_coal_allowable
  let spc ← sr.sp_coal_actual
  let aux ← sr.aux_power_pct
  let oil ← sr.sp_oil_ml_per_kwh
  let cs ← mapMO decCS sr.coal_sources
  let rs ← mapMO decReason sr.reasons_breakup
  pure
    { station := sr.station, period_label := sr.period_label,
      report_date := sr.report_date,
      vc_merc_order := m, vc_recoverable_mod := rcv, vc_actual := a,
      vc_unrecoverable_rpkwh := u, fuel_cost_disallowance_rs_cr := dis,
      sp_coal_allowable := spa, sp_coal_actual := spc,
      aux_power_pct := aux, sp_oil_ml_per_kwh := oil,
      coal_sources := cs, reasons_breakup := rs,
      raw_text_excerpt := sr.raw_text_excerpt }

/-- The local append of app.py lines 250 to 257: the prior rows are kept in
order and the new row is concatenated last. -/
def appendStore (s : List StoreRow) (r : Record) : List StoreRow :=
  s ++ [encodeStored r]

/-- Reading every stored record in file order (app.py line 267), each row
decoded back to a record. -/
def readAll (s : List StoreRow) : List (Option Record) :=
  s.map decodeStored

/-! ## The aggregator (app.py lines 286 to 294) -/

/-- The calendar-month key of a row: to_period(M) of its report date. -/
def monthKey (sr : StoreRow) : ℕ × ℕ := (sr.report_date.y, sr.report_date.m)

/-- Arithmetic mean of a list, none when it is empty (pandas mean of an
all-NaN group is NaN). -/
def meanOpt (xs : List ℚ) : Option ℚ :=
  if xs = [] then none else some (xs.sum / (xs.length : ℚ))

/-- The rows of a given month. -/
def monthRecords (rows : List StoreRow) (k : ℕ × ℕ) : List StoreRow :=
  rows.filter (fun r => monthKey r = k)

/-- One monthly mean cell of the groupby aggregate: the mean of the non-null
values of the field over the month's rows (pandas mean skips NaN). -/
def agg_avg (f : StoreRow → Option ℚ) (rows : List StoreRow) (k : ℕ × ℕ) : Option ℚ :=
  meanOpt ((monthRecords rows k).filterMap f)

/-- One monthly sum cell: the sum of the non-null values (pandas sum skips
NaN and gives 0 on an empty group). -/
def agg_sum (f : StoreRow → Option ℚ) (rows : List StoreRow) (k : ℕ × ℕ) : ℚ :=
  ((monthRecords rows k).filterMap f).sum

/-! ## The coal-source rollup (app.py lines 300 to 323) -/

/-- A cell value of the numeric columns of the DataFrame that pd.read_json
(app.py line 303) rebuilds from the stored coal-sources JSON: the reader's
dtype coercion casts the column to float64 whenever that cast succeeds, and
the cast maps every JSON null cell of a numeric column to the float64 NaN —
so a stored null effective cost is read back as NaN, not as None.  NaN is
truthy in Python and propagates through float arithmetic. -/
inductive QNan where
  | num (q : ℚ) : QNan
  | nan : QNan
deriving DecidableEq

/-- Python float addition on read-back values: NaN absorbs. -/
def addQN : QNan → QNan → QNan
  | QNan.num a, QNan.num b => QNan.num (a + b)
  | _, _ => QNan.nan

/-- Python sum of a list of read-back floats, NaN propagating. -/
def sumQN (l : List QNan) : QNan := l.foldl addQN (QNan.num 0)

/-- Python division of a read-back float by a count, NaN propagating. -/
def divQN : QNan → ℕ → QNan
  | QNan.num a, n => QNan.num (a / (n : ℚ))
  | QNan.nan, _ => QNan.nan

/-- sum(effs)/len(effs) if effs else None, over read-back floats. -/
def meanQN (l : List QNan) : Option QNan :=
  if l = [] then none else some (divQN (sumQN l) l.length)

/-- The accumulator kept per distinct name in the combined dictionary. -/
structure RAcc where
  count : ℕ
  effs : List QNan
  pct : QNan
deriving DecidableEq

/-- Update an association list at a key, inserting the image of the initial
accumulator at the end when the key is new (Python dict insertion order). -/
def updA : List (List Char × RAcc) → List Char → (RAcc → RAcc) →
    List (List Char × RAcc)
  | [], nm, f => [(nm, f ⟨0, [], QNan.num 0⟩)]
  | (k, v) :: rest, nm, f =>
    if k = nm then (k, f v) :: rest else (k, v) :: updA rest nm f

/-- What a row contributes to the collected effective costs: its effective
cost exactly when that cell's read-back value is truthy in Python (app.py
line 313).  A present zero reads back as 0.0 and is falsy, so it is
dropped; a stored null reads back as the float64 NaN under the reader's
dtype coercion, and NaN is truthy, so float(eff) appends NaN. -/
def effContrib (row : CoalSrc) : List QNan :=
  match row.Eff_RsPerMkcal with
  | some e => if e = 0 then [] else [QNan.num e]
  | none => [QNan.nan]

/-- One row's contribution to the combined dictionary (app.py lines 304 to
317): the stripped name keys the entry (an empty name is skipped), the count
always increments, the effective cost is appended when its read-back value
is truthy (a non-zero number or NaN), and a truthy percentage share (a
non-zero number, or the NaN a stored null reads back as) is added. -/
def rollStep (m : List (List Char × RAcc)) (row : CoalSrc) :
    List (List Char × RAcc) :=
  let name := pstrip row.name
  if name.isEmpty then m
  else
    updA m name (fun a =>
      { count := a.count + 1
        effs := a.effs ++ effContrib row
        pct :=
          (match row.Pct_share with
           | some p => if p = 0 then a.pct else addQN a.pct (QNan.num p)
           | none => addQN a.pct QNan.nan) })

/-- The combined dictionary over all coal-source rows of the selected
month's records. -/
def rollup (rows : List CoalSrc) : List (List Char × RAcc) :=
  rows.foldl rollStep []

/-- The average effective cost reported for a name (app.py line 322):
sum over length of the collected effective costs, none when none were
collected or the name never appeared; NaN contributions poison the sum. -/
def avg_eff (rows : List CoalSrc) (nm : List Char) : Option QNan :=
  match alook (rollup rows) nm with
  | some a => if a.effs = [] then none else some (divQN (sumQN a.effs) a.effs.length)
  | none => none

/-! ## The Google-Sheets append and the save block (app.py lines 139 to 262) -/

/-- The environment of gsheet_append_row: whether the gspread libraries
imported, which Streamlit secrets are present, and the outcomes of the
remote calls, each modelled as an Except-valued operation whose error is
the exception text caught by the surrounding try. -/
structure GsEnv where
  gspread_available : Bool
  has_gcp_service_account : Bool
  has_gspread_sheet_id : Bool
  connect : Except (List Char) Unit
  row_values1 : Except (List Char) (List (List Char))
  insert_header : Except (List Char) Unit
  append_row : Except (List Char) Unit

/-- gsheet_append_row of app.py lines 139 to 173: refuse when the library is
missing; inside the try, refuse when a secret is missing, connect, read the
header row (its own try-except yields an empty header on failure), insert
the header when absent or short, append the row; any exception of the try
is caught and returned as the message of a failed result. -/
def gsheet_append_row (env : GsEnv) : Bool × List Char :=
  if !env.gspread_available then (false, "gspread/google-auth not installed".toList)
  else
    match (do
      if !(env.has_gcp_service_account && env.has_gspread_sheet_id) then
        return (false,
          "gcp_service_account or gspread_sheet_id missing in Streamlit secrets".toList)
      let _ ← env.connect
      let existing_header :=
        match env.row_values1 with
        | .ok v => v
        | .error _ => []
      if existing_header.isEmpty || existing_header.length < 3 then
        let _ ← env.insert_header
      let _ ← env.append_row
      return (true, "Appended to Google Sheet".toList) :
      Except (List Char) (Bool × List Char)) with
    | .ok r => r
    | .error e => (false, e)

/-- The USE_GSHEETS configuration flag of app.py line 21. -/
def USE_GSHEETS : Bool := true

/-- The save block of app.py lines 243 to 262: attempt the remote append
first when configured and available, then always append to the local CSV,
and report success or the remote failure message. -/
def save_block (env : GsEnv) (store : List StoreRow) (r : Record) :
    List StoreRow × Bool × List Char :=
  let res :=
    if USE_GSHEETS && env.gspread_available then gsheet_append_row env
    else (false, [])
  let store1 := appendStore store r
  (store1, res.1,
    if res.1 then "Record appended to Google Sheet AND local CSV.".toList
    else "Record appended to local CSV. Google Sheets append not completed: ".toList
      ++ res.2)

/-! ## Derived notions used in the statements and proofs -/

/-- Whether an Except-valued computation finished without raising. -/
def isOkE {ε α : Type} : Except ε α → Bool
  | .ok _ => true
  | .error _ => false

instance {ε α : Type} [DecidableEq ε] [DecidableEq α] : DecidableEq (Except ε α) :=
  fun a b =>
    match a, b with
    | .ok x, .ok y =>
      match decEq x y with
      | isTrue h => isTrue (by rw [h])
      | isFalse h => isFalse (by intro hc; cases hc; exact h rfl)
    | .error x, .error y =>
      match decEq x y with
      | isTrue h => isTrue (by rw [h])
      | isFalse h => isFalse (by intro hc; cases hc; exact h rfl)
    | .ok _, .error _ => isFalse (by intro hc; cases hc)
    | .error _, .ok _ => isFalse (by intro hc; cases hc)

/-- The value extracted from a line by the line loop: the first number token
converted after comma stripping. -/
def lineNumVal (l : List Char) : Option ℚ :=
  (firstNumTok l).bind (fun tok => pyFloat? (stripCommas tok))

/-- The pure shadow of setNum (they agree because the conversion of a first
number token never fails, which is proved below). -/
def setNumP (cond : Bool) (line : List Char) (old : Option ℚ) : Option ℚ :=
  if cond then
    match lineNumVal line with
    | some v => some v
    | none => old
  else old

/-- The pure shadow of vcLineStep. -/
def vcPure (vc : VC) (line : List Char) : VC :=
  let low := toLowerL line
  ⟨setNumP (vcCondMerc low) line vc.merc_order,
   setNumP (vcCondRecov low) line vc.recoverable_mod,
   setNumP (vcCondActual low) line vc.actual,
   setNumP (vcCondDis low) line vc.disallowance_rs_cr,
   setNumP (vcCondUnrec low) line vc.unrecoverable_rpkwh⟩

/-- The result of the line loop of parse_variable_charge alone, before the
fallbacks. -/
def linePassVC (text : List Char) : VC :=
  (pySplitlines text).foldl vcPure vc0

/-- The candidate values a keyword condition collects from the lines of a
text: for each line whose lowercase form satisfies the condition and which
contains a number token, that token's value. -/
def vcCands (cond : List Char → Bool) (text : List Char) : List ℚ :=
  (pySplitlines text).filterMap
    (fun l => if cond (toLowerL l) then lineNumVal l else none)

/-- How many collected reasons entries carry exactly the given reason text. -/
def countReason (nm : List Char) (rs : List Reason) : ℕ :=
  (rs.filter (fun r => r.reason = nm)).length

/-- The effective costs that the rollup collects for a name, stated
declaratively: the rows whose stripped name is the given one contribute
their effective cost when it is present and non-zero, and contribute the
read-back NaN when it is a stored null (a present zero is dropped). -/
def effsOf (rows : List CoalSrc) (nm : List Char) : List QNan :=
  (rows.filter (fun r => pstrip r.name = nm)).filterMap
    (fun r =>
      match r.Eff_RsPerMkcal with
      | some e => if e = 0 then none else some (QNan.num e)
      | none => some QNan.nan)

/-- Whether the rollup saw the name at all. -/
def nameAppears (rows : List CoalSrc) (nm : List Char) : Bool :=
  rows.any (fun r => pstrip r.name = nm)

/-- Declarative single-run matching for a quantifier-free token run: the run
matches exactly the given characters.  Used to characterize what a capture
group of the engine can contain. -/
inductive RMatch : List Tok → List Char → Prop where
  | nil : RMatch [] []
  | one {cc : CC} {c : Char} {ts : List Tok} {s : List Char} :
      cc.test c = true → RMatch ts s → RMatch (.one cc :: ts) (c :: s)
  | optY {cc : CC} {c : Char} {ts : List Tok} {s : List Char} :
      cc.test c = true → RMatch ts s → RMatch (.opt cc :: ts) (c :: s)
  | optN {cc : CC} {ts : List Tok} {s : List Char} :
      RMatch ts s → RMatch (.opt cc :: ts) s
  | starNil {cc : CC} {g : Bool} {ts : List Tok} {s : List Char} :
      RMatch ts s → RMatch (.star cc g :: ts) s
  | starCons {cc : CC} {g : Bool} {c : Char} {ts : List Tok} {s : List Char} :
      cc.test c = true → RMatch (.star cc g :: ts) s →
      RMatch (.star cc g :: ts) (c :: s)

/-- The indices of the capture groups a pattern closes. -/
def gcloseIdxs : List Tok → List ℕ
  | [] => []
  | .gclose n :: ts => n :: gcloseIdxs ts
  | _ :: ts => gcloseIdxs ts

/-- Whether a token is a plain character-class token (one, opt or star):
such tokens neither open nor close groups and ignore the group state. -/
def classTok : Tok → Bool
  | .one _ => true
  | .opt _ => true
  | .star _ _ => true
  | _ => false

/-! ## Concrete sample instances used by witnesses -/

/-- A store row with the given date and actual variable charge, every other
numeric field absent. -/
def mkRow (y m d : ℕ) (vca : Option ℚ) : StoreRow :=
  { station := "KTPS".toList, period_label := [], report_date := ⟨y, m, d⟩,
    vc_merc_order := none, vc_recoverable_mod := none, vc_actual := vca,
    vc_unrecoverable_rpkwh := none, fuel_cost_disallowance_rs_cr := none,
    sp_coal_allowable := none, sp_coal_actual := none, aux_power_pct := none,
    sp_oil_ml_per_kwh := none, coal_sources := [], reasons_breakup := [],
    raw_text_excerpt := [] }

/-- The record that saving the upload text no data here produces: every
extraction fails, so every numeric field carries the review default zero. -/
def noDataRecord : Record :=
  { station := "KTPS".toList, period_label := [], report_date := ⟨2025, 10, 1⟩,
    vc_merc_order := 0, vc_recoverable_mod := 0, vc_actual := 0,
    vc_unrecoverable_rpkwh := 0, fuel_cost_disallowance_rs_cr := 0,
    sp_coal_allowable := 0, sp_coal_actual := 0, aux_power_pct := 0,
    sp_oil_ml_per_kwh := 0, coal_sources := [], reasons_breakup := [],
    raw_text_excerpt := "no data here".toList }

/-- A remote environment whose Streamlit secrets are missing: the remote
append fails with the missing-secrets message. -/
def envNoSecrets : GsEnv :=
  { gspread_available := true, has_gcp_service_account := false,
    has_gspread_sheet_id := false, connect := .ok (), row_values1 := .ok [],
    insert_header := .ok (), append_row := .ok () }

/-! # Supporting lemmas -/

theorem takeWhile_append_all {α : Type} (p : α → Bool) (a b : List α)
    (ha : ∀ c ∈ a, p c = true) :
    (a ++ b).takeWhile p = a ++ b.takeWhile p := by
  induction a with
  | nil => simp
  | cons x r ih =>
    have hx : p x = true := ha x (by simp)
    simp [List.takeWhile_cons, hx, ih (fun c hc => ha c (by simp [hc]))]

theorem dropWhile_append_all {α : Type} (p : α → Bool) (a b : List α)
    (ha : ∀ c ∈ a, p c = true) :
    (a ++ b).dropWhile p = b.dropWhile p := by
  induction a with
  | nil => simp
  | cons x r ih =>
    have hx : p x = true := ha x (by simp)
    simp [List.dropWhile_cons, hx, ih (fun c hc => ha c (by simp [hc]))]

theorem takeWhile_all {α : Type} (p : α → Bool) (a : List α)
    (ha : ∀ c ∈ a, p c = true) : a.takeWhile p = a := by
  induction a with
  | nil => simp
  | cons x r ih =>
    have hx : p x = true := ha x (by simp)
    simp [List.takeWhile_cons, hx, ih (fun c hc => ha c (by simp [hc]))]

theorem dropWhile_all {α : Type} (p : α → Bool) (a : List α)
    (ha : ∀ c ∈ a, p c = true) : a.dropWhile p = [] := by
  induction a with
  | nil => simp
  | cons x r ih =>
    have hx : p x = true := ha x (by simp)
    simp [List.dropWhile_cons, hx, ih (fun c hc => ha c (by simp [hc]))]

theorem splitOnNL_noNL (s : List Char) (h : ∀ c ∈ s, ¬ c = '\n') :
    splitOnNL s = [s] := by
  induction s with
  | nil => rfl
  | cons c rest ih =>
    have hc : ¬ c = '\n' := h c (by simp)
    have hr := ih (fun x hx => h x (by simp [hx]))
    simp [splitOnNL, hc, hr]

theorem splitOnNL_pair (a b : List Char) (ha : ∀ c ∈ a, ¬ c = '\n')
    (hb : ∀ c ∈ b, ¬ c = '\n') :
    splitOnNL (a ++ '\n' :: b) = [a, b] := by
  induction a with
  | nil => simp [splitOnNL, splitOnNL_noNL b hb]
  | cons c r ih =>
    have hc : ¬ c = '\n' := ha c (by simp)
    have hr := ih (fun x hx => ha x (by simp [hx]))
    simp [splitOnNL, hc, hr]

theorem pySplitlines_pair (a b : List Char) (ha : ∀ c ∈ a, ¬ c = '\n')
    (hb : ∀ c ∈ b, ¬ c = '\n') (hbne : ¬ b = []) :
    pySplitlines (a ++ '\n' :: b) = [a, b] := by
  have h1 := splitOnNL_pair a b ha hb
  have h2 : ¬ (a ++ '\n' :: b) = [] := by simp
  have h3 : ([a, b] : List (List Char)).getLast? = some b := rfl
  simp [pySplitlines, h2, h1, h3, hbne]

/-- The general half of C6: with the header line in place, a newline-free
non-blank data row is parsed positionally by parseRow. -/
theorem coal_sources_single_row (row : List Char) (hnl : ∀ c ∈ row, ¬ c = '\n')
    (hne : (pstrip row).isEmpty = false) :
    parse_coal_sources ("Coal Source | GCV | Landed Cost".toList ++ '\n' :: row) =
      [parseRow row] := by
  have hhdr : ∀ c ∈ "Coal Source | GCV | Landed Cost".toList, ¬ c = '\n' := by decide
  have hrne : ¬ row = [] := by
    intro h
    rw [h] at hne
    simp [pstrip] at hne
  unfold parse_coal_sources
  rw [pySplitlines_pair _ _ hhdr hnl hrne]
  dsimp only
  rw [show findHeaderIdx ["Coal Source | GCV | Landed Cost".toList, row] = some 0 from by
    unfold findHeaderIdx
    rw [if_pos (by decide)]]
  simp [hne]

/-! # C6 -/

/-- C6: parse_coal_sources extracts the numeric tokens of a data row in
left-to-right order, assigns the first four positionally to GCV, landed
cost, effective cost and percentage share (missing positions null), and
derives the name by stripping numeric tokens, punctuation and delimiters.
In particular the row Adani pipe 3850 4200.50 1.25 18.3 parses to name
Adani, gcv 3850, landed 4200.50, eff 1.25, pct 18.3; a shorter row leaves
the missing trailing positions null. -/
theorem claim_C6 :
    (∀ row : List Char, (∀ c ∈ row, ¬ c = '\n') → (pstrip row).isEmpty = false →
      parse_coal_sources ("Coal Source | GCV | Landed Cost".toList ++ '\n' :: row) =
        [parseRow row]) ∧
    parse_coal_sources
      ("Coal Source | GCV | Landed Cost\nAdani  |  3850  4200.50  1.25  18.3\nVedanta | 3900 4100.25".toList) =
      [⟨"Adani".toList, some 3850, some (mkRat 8401 2), some (mkRat 5 4),
        some (mkRat 183 10)⟩,
       ⟨"Vedanta".toList, some 3900, some (mkRat 16401 4), none, none⟩] :=
  ⟨coal_sources_single_row, rfl⟩

/-- Witness for C6: the theorem applied to the concrete Adani row. -/
theorem claim_C6_witness :
    parse_coal_sources
      ("Coal Source | GCV | Landed Cost".toList ++ '\n' ::
        "Adani  |  3850  4200.50  1.25  18.3".toList) =
      [parseRow ("Adani  |  3850  4200.50  1.25  18.3".toList)] :=
  claim_C6.1 ("Adani  |  3850  4200.50  1.25  18.3".toList) (by decide) (by decide)

/-! # C9 -/

theorem jnum?_jopt (o : Option ℚ) : jnum? (jopt o) = some o := by
  cases o <;> rfl

theorem decCS_encCS (c : CoalSrc) : decCS (encCS c) = some c := by
  obtain ⟨name, g, la, e, p⟩ := c
  cases g <;> cases la <;> cases e <;> cases p <;> rfl

theorem decReason_encReason (r : Reason) : decReason (encReason r) = some r := by
  obtain ⟨rn, a⟩ := r
  cases a <;> rfl

theorem mapM_decCS (cs : List CoalSrc) : mapMO decCS (cs.map encCS) = some cs := by
  induction cs with
  | nil => rfl
  | cons c rest ih => simp [mapMO, decCS_encCS c, ih]

theorem mapM_decReason (rs : List Reason) :
    mapMO decReason (rs.map encReason) = some rs := by
  induction rs with
  | nil => rfl
  | cons r rest ih => simp [mapMO, decReason_encReason r, ih]

theorem decodeStored_encodeStored (r : Record) :
    decodeStored (encodeStored r) = some r := by
  obtain ⟨st, pl, rd, f1, f2, f3, f4, f5, f6, f7, f8, f9, cs, rs, raw⟩ := r
  simp [encodeStored, decodeStored, mapM_decCS, mapM_decReason]

/-- C9: appending a record to the store and reading everything back yields
the prior records unchanged in file order, followed by a final record whose
every field (the serialized sub-tables included) equals the appended
record. -/
theorem claim_C9 (s : List StoreRow) (r : Record) :
    readAll (appendStore s r) = readAll s ++ [some r] := by
  simp [readAll, appendStore, decodeStored_encodeStored]

/-! # C10 -/

/-- C10: saving a record always appends it to the local store, whatever the
remote environment does; and whenever the remote append was attempted and
failed, the surfaced message is the local-only warning carrying the remote
failure reason. -/
theorem claim_C10 :
    (∀ (env : GsEnv) (store : List StoreRow) (r : Record),
      (save_block env store r).1 = store ++ [encodeStored r]) ∧
    (∀ (env : GsEnv) (store : List StoreRow) (r : Record),
      env.gspread_available = true → (gsheet_append_row env).1 = false →
      (save_block env store r).2.2 =
        "Record appended to local CSV. Google Sheets append not completed: ".toList
          ++ (gsheet_append_row env).2) := by
  constructor
  · intro env store r
    rfl
  · intro env store r havail hfail
    simp [save_block, USE_GSHEETS, havail, hfail]

/-- Witness for C10: with the secrets missing, the remote append fails, the
local append still lands the row, and the warning carries the missing-secrets
reason. -/
theorem claim_C10_witness :
    (save_block envNoSecrets [] noDataRecord).1 = [] ++ [encodeStored noDataRecord] ∧
    (save_block envNoSecrets [] noDataRecord).2.2 =
      "Record appended to local CSV. Google Sheets append not completed: ".toList
        ++ (gsheet_append_row envNoSecrets).2 :=
  ⟨claim_C10.1 envNoSecrets [] noDataRecord,
   claim_C10.2 envNoSecrets [] noDataRecord rfl rfl⟩

/-! # C3 -/

/-- C3: the monthly aggregate partitions rows by the calendar month of the
report date and averages only the non-null values of the tracked metric: a
null contributes nothing (rather than a zero), a row of another month
contributes nothing, and the concrete three-record month with actual
variable charges 3.1, null, 3.3 has mean exactly 3.2. -/
theorem claim_C3 :
    (∀ (rows : List StoreRow) (r : StoreRow) (k : ℕ × ℕ), r.vc_actual = none →
      agg_avg StoreRow.vc_actual (r :: rows) k = agg_avg StoreRow.vc_actual rows k) ∧
    (∀ (rows : List StoreRow) (r : StoreRow) (k : ℕ × ℕ), ¬ monthKey r = k →
      agg_avg StoreRow.vc_actual (r :: rows) k = agg_avg StoreRow.vc_actual rows k) ∧
    agg_avg StoreRow.vc_actual
      [mkRow 2025 10 5 (some (mkRat 31 10)), mkRow 2025 10 15 none,
       mkRow 2025 10 25 (some (mkRat 33 10))] (2025, 10) = some (mkRat 16 5) := by
  refine ⟨?_, ?_, ?_⟩
  · intro rows r k hnull
    by_cases hk : monthKey r = k
    · simp [agg_avg, monthRecords, List.filter_cons, hk, hnull]
    · simp [agg_avg, monthRecords, List.filter_cons, hk]
  · intro rows r k hk
    simp [agg_avg, monthRecords, List.filter_cons, hk]
  · unfold agg_avg
    rw [show (monthRecords
        [mkRow 2025 10 5 (some (mkRat 31 10)), mkRow 2025 10 15 none,
         mkRow 2025 10 25 (some (mkRat 33 10))] (2025, 10)).filterMap
          StoreRow.vc_actual = [mkRat 31 10, mkRat 33 10] from by decide]
    unfold meanOpt
    rw [if_neg (by decide)]
    rw [Rat.mkRat_eq_div, Rat.mkRat_eq_div, Rat.mkRat_eq_div]
    norm_num [List.sum_cons, List.sum_nil]

/-- Witness for C3: the null-exclusion and month-partition parts applied to
concrete rows, together with the concrete mean. -/
theorem claim_C3_witness :
    agg_avg StoreRow.vc_actual
      [mkRow 2025 10 15 none, mkRow 2025 10 5 (some (mkRat 31 10))] (2025, 10) =
      agg_avg StoreRow.vc_actual [mkRow 2025 10 5 (some (mkRat 31 10))] (2025, 10) ∧
    agg_avg StoreRow.vc_actual
      [mkRow 2025 11 2 (some 7), mkRow 2025 10 5 (some (mkRat 31 10))] (2025, 10) =
      agg_avg StoreRow.vc_actual [mkRow 2025 10 5 (some (mkRat 31 10))] (2025, 10) ∧
    agg_avg StoreRow.vc_actual
      [mkRow 2025 10 5 (some (mkRat 31 10)), mkRow 2025 10 15 none,
       mkRow 2025 10 25 (some (mkRat 33 10))] (2025, 10) = some (mkRat 16 5) :=
  ⟨claim_C3.1 [mkRow 2025 10 5 (some (mkRat 31 10))] (mkRow 2025 10 15 none)
      (2025, 10) rfl,
   claim_C3.2.1 [mkRow 2025 10 5 (some (mkRat 31 10))] (mkRow 2025 11 2 (some 7))
      (2025, 10) (by decide),
   claim_C3.2.2⟩

/-! # C8 -/

theorem alook_updA_self (m : List (List Char × RAcc)) (nm : List Char)
    (f : RAcc → RAcc) :
    alook (updA m nm f) nm =
      some (f ((alook m nm).getD ⟨0, [], QNan.num 0⟩)) := by
  induction m with
  | nil => simp [updA, alook]
  | cons kv rest ih =>
    obtain ⟨k, v⟩ := kv
    by_cases h : k = nm
    · simp [updA, alook, h]
    · simp [updA, alook, h, ih]

theorem alook_updA_ne (m : List (List Char × RAcc)) (nm nm' : List Char)
    (f : RAcc → RAcc) (h : ¬ nm = nm') :
    alook (updA m nm f) nm' = alook m nm' := by
  induction m with
  | nil => simp [updA, alook, h]
  | cons kv rest ih =>
    obtain ⟨k, v⟩ := kv
    by_cases hk : k = nm
    · subst hk
      simp [updA, alook, h]
    · simp [updA, alook, hk, ih]

theorem effsOf_cons (row : CoalSrc) (rest : List CoalSrc) (nm : List Char) :
    effsOf (row :: rest) nm =
      (if pstrip row.name = nm then effContrib row else []) ++ effsOf rest nm := by
  by_cases h : pstrip row.name = nm
  · rcases he : row.Eff_RsPerMkcal with _ | e
    · simp [effsOf, List.filter_cons, h, effContrib, he]
    · by_cases hz : e = 0 <;> simp [effsOf, List.filter_cons, h, effContrib, he, hz]
  · simp [effsOf, List.filter_cons, h]

theorem effsOf_eq_nil_of_not_appears (rows : List CoalSrc) (nm : List Char)
    (h : nameAppears rows nm = false) : effsOf rows nm = [] := by
  induction rows with
  | nil => rfl
  | cons row rest ih =>
    rw [nameAppears, List.any_cons] at h
    simp only [Bool.or_eq_false_iff] at h
    rw [effsOf_cons, if_neg (by simpa using h.1), ih (by simpa [nameAppears] using h.2)]
    rfl

theorem foldl_rollStep_effs (rows : List CoalSrc) :
    ∀ (m : List (List Char × RAcc)) (nm : List Char), ¬ nm = [] →
    (alook (rows.foldl rollStep m) nm).map RAcc.effs =
      (match alook m nm with
       | some a => some (a.effs ++ effsOf rows nm)
       | none => if nameAppears rows nm then some (effsOf rows nm) else none) := by
  induction rows with
  | nil =>
    intro m nm _
    cases h : alook m nm <;> simp [h, effsOf, nameAppears]
  | cons row rest ih =>
    intro m nm hnm
    rw [List.foldl_cons, ih (rollStep m row) nm hnm]
    by_cases hemp : (pstrip row.name).isEmpty
    · have hne : ¬ pstrip row.name = nm := by
        intro hx
        rw [hx] at hemp
        rw [List.isEmpty_iff] at hemp
        exact hnm hemp
      rw [show rollStep m row = m from by simp [rollStep, hemp]]
      rw [effsOf_cons, if_neg hne]
      rw [show nameAppears (row :: rest) nm = nameAppears rest nm from by
        simp [nameAppears, List.any_cons, hne]]
      rfl
    · by_cases hname : pstrip row.name = nm
      · rw [show rollStep m row = updA m nm (fun a =>
          { count := a.count + 1, effs := a.effs ++ effContrib row,
            pct :=
              (match row.Pct_share with
               | some p => if p = 0 then a.pct else addQN a.pct (QNan.num p)
               | none => addQN a.pct QNan.nan) })
          from by rw [rollStep]; rw [if_neg (by simp [hemp]), hname]]
        rw [alook_updA_self]
        rw [effsOf_cons, if_pos hname]
        rw [show nameAppears (row :: rest) nm = true from by
          simp [nameAppears, List.any_cons, hname]]
        cases halook : alook m nm <;> simp [halook, List.append_assoc]
      · rw [show rollStep m row = updA m (pstrip row.name) (fun a =>
          { count := a.count + 1, effs := a.effs ++ effContrib row,
            pct :=
              (match row.Pct_share with
               | some p => if p = 0 then a.pct else addQN a.pct (QNan.num p)
               | none => addQN a.pct QNan.nan) })
          from by rw [rollStep]; rw [if_neg (by simp [hemp])]]
        rw [alook_updA_ne _ _ _ _ hname]
        rw [effsOf_cons, if_neg hname]
        rw [show nameAppears (row :: rest) nm = nameAppears rest nm from by
          simp [nameAppears, List.any_cons, hname]]
        rfl

theorem avg_eff_char (rows : List CoalSrc) (nm : List Char) (h : ¬ nm = []) :
    avg_eff rows nm = meanQN (effsOf rows nm) := by
  have hinv := foldl_rollStep_effs rows [] nm h
  rw [show alook ([] : List (List Char × RAcc)) nm = none from rfl] at hinv
  unfold avg_eff rollup
  cases halook : alook (List.foldl rollStep [] rows) nm with
  | none =>
    rw [halook] at hinv
    by_cases happ : nameAppears rows nm
    · rw [if_pos happ] at hinv
      exact absurd hinv (by simp)
    · rw [effsOf_eq_nil_of_not_appears rows nm (by simpa using happ)]
      rfl
  | some a =>
    rw [halook] at hinv
    by_cases happ : nameAppears rows nm
    · rw [if_pos happ] at hinv
      have heq : a.effs = effsOf rows nm := by simpa using hinv
      dsimp only
      rw [heq]
      simp [meanQN]
    · rw [if_neg happ] at hinv
      exact absurd hinv (by simp)

theorem sumQN_nan_aux (l : List QNan) : ∀ acc, QNan.nan ∈ l ∨ acc = QNan.nan →
    l.foldl addQN acc = QNan.nan := by
  induction l with
  | nil =>
    intro acc h
    rcases h with h | h
    · exact absurd h (by simp)
    · simpa using h
  | cons x xs ih =>
    intro acc h
    rw [List.foldl_cons]
    rcases h with h | h
    · rcases List.mem_cons.mp h with h | h
      · refine ih _ (Or.inr ?_)
        rw [← h]
        cases acc <;> rfl
      · exact ih _ (Or.inl h)
    · refine ih _ (Or.inr ?_)
      rw [h]
      rfl

theorem sumQN_nan (l : List QNan) (h : QNan.nan ∈ l) : sumQN l = QNan.nan :=
  sumQN_nan_aux l (QNan.num 0) (Or.inl h)

theorem meanQN_nan (l : List QNan) (h : QNan.nan ∈ l) :
    meanQN l = some QNan.nan := by
  rw [meanQN, if_neg (by rintro rfl; simp at h), sumQN_nan l h]
  rfl

theorem nan_mem_effsOf (rows : List CoalSrc) (nm : List Char) (row : CoalSrc)
    (hmem : row ∈ rows) (hname : pstrip row.name = nm)
    (heff : row.Eff_RsPerMkcal = none) : QNan.nan ∈ effsOf rows nm := by
  rw [effsOf]
  exact List.mem_filterMap.mpr
    ⟨row, List.mem_filter.mpr ⟨hmem, by simp [hname]⟩, by simp [heff]⟩

/-- Counterexample to C8: a stored effective cost of 0.0 is NOT excluded
from the rollup average exactly as a null is.  For a single appearance of
a name, a stored 0.0 reads back as the falsy float 0.0 and is dropped, so
the reported average is None; but a stored null reads back from
pd.read_json as the float64 NaN under the reader's dtype coercion (app.py
line 303), NaN is truthy at the membership test of app.py line 313, so it
is appended and the reported average is NaN — the two runs differ,
refuting the claimed zero-null equivalence. -/
theorem claim_C8_cex :
    avg_eff [⟨"Adani".toList, none, none, some 0, none⟩] ("Adani".toList) =
      none ∧
    avg_eff [⟨"Adani".toList, none, none, none, none⟩] ("Adani".toList) =
      some QNan.nan ∧
    ¬ (avg_eff [⟨"Adani".toList, none, none, some 0, none⟩] ("Adani".toList) =
       avg_eff [⟨"Adani".toList, none, none, none, none⟩] ("Adani".toList)) :=
  ⟨rfl, rfl, by decide⟩

/-- C8 as amended: the rollup's reported average effective cost for a name
is the Python mean of the collected read-back values, where a stored 0.0
is falsy and excluded but a stored null reads back as the truthy float64
NaN and is included — so any null appearance of the name poisons the
reported average to NaN instead of being excluded like zero. -/
theorem claim_C8_amended (rows : List CoalSrc) (nm : List Char)
    (h : ¬ nm = []) :
    avg_eff rows nm = meanQN (effsOf rows nm) ∧
    (∀ (g la pc : Option ℚ), effContrib ⟨nm, g, la, some 0, pc⟩ = []) ∧
    (∀ row ∈ rows, pstrip row.name = nm → row.Eff_RsPerMkcal = none →
      avg_eff rows nm = some QNan.nan) := by
  refine ⟨avg_eff_char rows nm h, fun g la pc => by simp [effContrib], ?_⟩
  intro row hmem hname heff
  rw [avg_eff_char rows nm h]
  exact meanQN_nan _ (nan_mem_effsOf rows nm row hmem hname heff)

/-- Witness for C8 as amended: over three Adani appearances (eff 1.25, eff
0.0, eff null) the reported average is the mean of the read-back values,
and because of the null appearance that mean is NaN — the zero contributes
nothing while the null poisons the average. -/
theorem claim_C8_amended_witness :
    ¬ ("Adani".toList = ([] : List Char)) ∧
    avg_eff [⟨"Adani".toList, none, none, some (mkRat 5 4), none⟩,
             ⟨"Adani".toList, none, none, some 0, none⟩,
             ⟨"Adani".toList, none, none, none, none⟩] ("Adani".toList) =
      meanQN (effsOf
        [⟨"Adani".toList, none, none, some (mkRat 5 4), none⟩,
         ⟨"Adani".toList, none, none, some 0, none⟩,
         ⟨"Adani".toList, none, none, none, none⟩] ("Adani".toList)) ∧
    avg_eff [⟨"Adani".toList, none, none, some (mkRat 5 4), none⟩,
             ⟨"Adani".toList, none, none, some 0, none⟩,
             ⟨"Adani".toList, none, none, none, none⟩] ("Adani".toList) =
      some QNan.nan :=
  ⟨by decide,
   (claim_C8_amended [⟨"Adani".toList, none, none, some (mkRat 5 4), none⟩,
      ⟨"Adani".toList, none, none, some 0, none⟩,
      ⟨"Adani".toList, none, none, none, none⟩] ("Adani".toList) (by decide)).1,
   (claim_C8_amended [⟨"Adani".toList, none, none, some (mkRat 5 4), none⟩,
      ⟨"Adani".toList, none, none, some 0, none⟩,
      ⟨"Adani".toList, none, none, none, none⟩] ("Adani".toList) (by decide)).2.2
     ⟨"Adani".toList, none, none, none, none⟩ (by simp) rfl rfl⟩

/-! # C1 -/

theorem ebind_ok {ε α β : Type} (a : α) (f : α → Except ε β) :
    (Except.ok a >>= f) = f a := rfl

/-- Counterexample to C1: uploading a text in which every numeric extraction
fails (parse_variable_charge returns the all-none record) still appends a
store row whose merc-order cell is the number zero, not null — the review
form of app.py lines 194 to 205 coerces each absent extraction to the
number_input default 0.0 before the save block stores it. -/
theorem claim_C1_cex :
    build_record "no data here".toList "KTPS".toList [] ⟨2025, 10, 1⟩ =
      .ok noDataRecord ∧
    parse_variable_charge "no data here".toList = .ok vc0 ∧
    parse_sp_coal "no data here".toList = .ok ⟨none, none⟩ ∧
    (encodeStored noDataRecord).vc_merc_order = some 0 ∧
    ¬ (some (0 : ℚ) = (none : Option ℚ)) :=
  ⟨rfl, rfl, rfl, rfl, by simp⟩

/-- C1 as amended: every numeric cell of a row written by the save block is
present (never null), and each numeric field whose extraction failed is
stored as the number zero — the review defaults coerce null to 0.0, and the
two free-form station metrics always default to 0.0. -/
theorem claim_C1_amended (text station period : List Char) (d : Date)
    (vc : VC) (sp : SpCoal) (r : Record)
    (hvc : parse_variable_charge text = .ok vc)
    (hsp : parse_sp_coal text = .ok sp)
    (hr : build_record text station period d = .ok r) :
    ((encodeStored r).vc_merc_order).isSome = true ∧
    ((encodeStored r).vc_recoverable_mod).isSome = true ∧
    ((encodeStored r).vc_actual).isSome = true ∧
    ((encodeStored r).vc_unrecoverable_rpkwh).isSome = true ∧
    ((encodeStored r).fuel_cost_disallowance_rs_cr).isSome = true ∧
    ((encodeStored r).sp_coal_allowable).isSome = true ∧
    ((encodeStored r).sp_coal_actual).isSome = true ∧
    ((encodeStored r).aux_power_pct).isSome = true ∧
    ((encodeStored r).sp_oil_ml_per_kwh).isSome = true ∧
    (vc.merc_order = none → (encodeStored r).vc_merc_order = some 0) ∧
    (vc.recoverable_mod = none → (encodeStored r).vc_recoverable_mod = some 0) ∧
    (vc.actual = none → (encodeStored r).vc_actual = some 0) ∧
    (vc.unrecoverable_rpkwh = none → (encodeStored r).vc_unrecoverable_rpkwh = some 0) ∧
    (vc.disallowance_rs_cr = none →
      (encodeStored r).fuel_cost_disallowance_rs_cr = some 0) ∧
    (sp.allowable = none → (encodeStored r).sp_coal_allowable = some 0) ∧
    (sp.actual = none → (encodeStored r).sp_coal_actual = some 0) ∧
    (encodeStored r).aux_power_pct = some 0 ∧
    (encodeStored r).sp_oil_ml_per_kwh = some 0 := by
  unfold build_record at hr
  rw [hvc, ebind_ok, hsp, ebind_ok] at hr
  cases hrs : parse_reasons_breakup text with
  | error e => rw [hrs] at hr; exact Except.noConfusion hr
  | ok rs =>
    rw [hrs, ebind_ok] at hr
    have hrr : Except.ok (ε := Unit)
        ({ station := station, period_label := period, report_date := d,
           vc_merc_order := pyOrZero vc.merc_order,
           vc_recoverable_mod := pyOrZero vc.recoverable_mod,
           vc_actual := pyOrZero vc.actual,
           vc_unrecoverable_rpkwh := pyOrZero vc.unrecoverable_rpkwh,
           fuel_cost_disallowance_rs_cr := pyOrZero vc.disallowance_rs_cr,
           sp_coal_allowable := pyOrZero sp.allowable,
           sp_coal_actual := pyOrZero sp.actual,
           aux_power_pct := 0, sp_oil_ml_per_kwh := 0,
           coal_sources := parse_coal_sources text, reasons_breakup := rs,
           raw_text_excerpt := text.take 1200 } : Record) = Except.ok r := hr
    injection hrr with hrr
    subst hrr
    dsimp only [encodeStored]
    refine ⟨rfl, rfl, rfl, rfl, rfl, rfl, rfl, rfl, rfl,
      ?_, ?_, ?_, ?_, ?_, ?_, ?_, rfl, rfl⟩
    all_goals intro hx
    all_goals rw [hx]
    all_goals rfl

/-- Witness for C1 as amended: the no-data upload, where every extraction
fails and every stored numeric cell is the number zero. -/
theorem claim_C1_amended_witness :
    ((encodeStored noDataRecord).vc_merc_order).isSome = true ∧
    ((encodeStored noDataRecord).vc_recoverable_mod).isSome = true ∧
    ((encodeStored noDataRecord).vc_actual).isSome = true ∧
    ((encodeStored noDataRecord).vc_unrecoverable_rpkwh).isSome = true ∧
    ((encodeStored noDataRecord).fuel_cost_disallowance_rs_cr).isSome = true ∧
    ((encodeStored noDataRecord).sp_coal_allowable).isSome = true ∧
    ((encodeStored noDataRecord).sp_coal_actual).isSome = true ∧
    ((encodeStored noDataRecord).aux_power_pct).isSome = true ∧
    ((encodeStored noDataRecord).sp_oil_ml_per_kwh).isSome = true ∧
    (vc0.merc_order = none → (encodeStored noDataRecord).vc_merc_order = some 0) ∧
    (vc0.recoverable_mod = none →
      (encodeStored noDataRecord).vc_recoverable_mod = some 0) ∧
    (vc0.actual = none → (encodeStored noDataRecord).vc_actual = some 0) ∧
    (vc0.unrecoverable_rpkwh = none →
      (encodeStored noDataRecord).vc_unrecoverable_rpkwh = some 0) ∧
    (vc0.disallowance_rs_cr = none →
      (encodeStored noDataRecord).fuel_cost_disallowance_rs_cr = some 0) ∧
    ((⟨none, none⟩ : SpCoal).allowable = none →
      (encodeStored noDataRecord).sp_coal_allowable = some 0) ∧
    ((⟨none, none⟩ : SpCoal).actual = none →
      (encodeStored noDataRecord).sp_coal_actual = some 0) ∧
    (encodeStored noDataRecord).aux_power_pct = some 0 ∧
    (encodeStored noDataRecord).sp_oil_ml_per_kwh = some 0 :=
  claim_C1_amended "no data here".toList "KTPS".toList [] ⟨2025, 10, 1⟩
    vc0 ⟨none, none⟩ noDataRecord rfl rfl rfl

/-! # C7 -/

theorem secStep_skip (text : List Char) (rs : List Reason) (fr : List Char)
    (h : ∃ r ∈ rs, strIn (toLowerL fr) (toLowerL r.reason) = true) :
    secStep text rs fr = .ok rs := by
  obtain ⟨r, hmem, hsub⟩ := h
  have hany : rs.any (fun r => strIn (toLowerL fr) (toLowerL r.reason)) = true :=
    List.any_eq_true.mpr ⟨r, hmem, hsub⟩
  simp only [secStep, hany, Bool.not_true, Bool.and_false, Bool.false_eq_true,
    if_false]
  rfl

theorem secStep_shape (text : List Char) (rs : List Reason) (f : List Char)
    (rs' : List Reason) (h : secStep text rs f = .ok rs') :
    rs' = rs ∨ ∃ amt, rs' = rs ++ [⟨f, amt⟩] := by
  unfold secStep at h
  by_cases hc : (strIn (toLowerL f) (toLowerL text) &&
      !(rs.any (fun r => strIn (toLowerL f) (toLowerL r.reason)))) = true
  · rw [if_pos hc] at h
    cases hs : rsearch (patFR f) text with
    | none =>
      rw [hs] at h
      injection h with h
      exact Or.inr ⟨none, h.symm⟩
    | some m =>
      obtain ⟨i, ra, caps⟩ := m
      rw [hs] at h
      dsimp only at h
      cases hp : pyFloatE (stripCommas ((alook caps 1).getD [])) with
      | error e => rw [hp] at h; exact Except.noConfusion h
      | ok v =>
        rw [hp, ebind_ok] at h
        injection h with h
        exact Or.inr ⟨some v, h.symm⟩
  · rw [if_neg hc] at h
    injection h with h
    exact Or.inl h.symm

theorem foldlM_secStep_count (text fr : List Char) :
    ∀ (frs : List (List Char)) (rs res : List Reason),
    (∃ r ∈ rs, strIn (toLowerL fr) (toLowerL r.reason) = true) →
    frs.foldlM (secStep text) rs = .ok res →
    countReason fr res = countReason fr rs := by
  intro frs
  induction frs with
  | nil =>
    intro rs res _ h
    injection h with h
    rw [h]
  | cons f rest ih =>
    intro rs res hex h
    rw [List.foldlM_cons] at h
    cases hstep : secStep text rs f with
    | error e => rw [hstep] at h; exact Except.noConfusion h
    | ok rs' =>
      rw [hstep, ebind_ok] at h
      have hshape := secStep_shape text rs f rs' hstep
      have hex' : ∃ r ∈ rs', strIn (toLowerL fr) (toLowerL r.reason) = true := by
        obtain ⟨r, hmem, hsub⟩ := hex
        rcases hshape with heq | ⟨amt, heq⟩
        · exact ⟨r, heq ▸ hmem, hsub⟩
        · exact ⟨r, heq ▸ (List.mem_append_left _ hmem), hsub⟩
      have hcount : countReason fr rs' = countReason fr rs := by
        rcases hshape with heq | ⟨amt, heq⟩
        · rw [heq]
        · by_cases hf : f = fr
          · subst hf
            rw [secStep_skip text rs f hex] at hstep
            injection hstep with hstep
            rw [← hstep]
          · rw [heq]
            simp [countReason, List.filter_append, hf]
      rw [ih rs' res hex' h, hcount]

/-- Counterexample to C7: on the text Stack loss - 2.15 rs.cr the primary
pattern truncates the title to Stack, the dedup test (is the canonical label
a substring of an already-collected reason) therefore fails, and the
secondary pass does add a second entry labelled Stack loss — the final list
has two entries, not one. -/
theorem claim_C7_cex :
    parse_reasons_breakup "Stack loss - 2.15 rs.cr".toList =
      .ok [⟨"Stack".toList, some (mkRat 43 20)⟩,
           ⟨"Stack loss".toList, some (mkRat 43 20)⟩] ∧
    primaryReasons "Stack loss - 2.15 rs.cr".toList =
      .ok [⟨"Stack".toList, some (mkRat 43 20)⟩] :=
  ⟨rfl, rfl⟩

/-- C7 as amended: the secondary pass skips a canonical label exactly when
the label is a case-insensitive substring of some already-collected entry's
reason text; under that condition the count of entries carrying the label is
unchanged from the primary pass.  Because the primary pattern truncates the
title at the word loss, the canonical label Stack loss fails this test on
Stack loss - 2.15 rs.cr, and a second entry is added there (the
counterexample evaluation). -/
theorem claim_C7_amended :
    (∀ (text fr : List Char) (prim rs : List Reason),
      primaryReasons text = .ok prim →
      parse_reasons_breakup text = .ok rs →
      (∃ r ∈ prim, strIn (toLowerL fr) (toLowerL r.reason) = true) →
      countReason fr rs = countReason fr prim) ∧
    parse_reasons_breakup "Stack loss - 2.15 rs.cr".toList =
      .ok [⟨"Stack".toList, some (mkRat 43 20)⟩,
           ⟨"Stack loss".toList, some (mkRat 43 20)⟩] := by
  constructor
  · intro text fr prim rs hp hr hex
    unfold parse_reasons_breakup at hr
    rw [hp, ebind_ok] at hr
    exact foldlM_secStep_count text fr fallback_reasons prim rs hex hr
  · rfl

/-- Witness for C7 as amended: the primary pass captures the full label Aux
power consn, so the secondary pass does not duplicate it even while it adds
an unrelated Stack loss entry. -/
theorem claim_C7_amended_witness :
    countReason ("Aux power consn".toList)
      [⟨"Aux power consn".toList, some 1⟩,
       ⟨"Stack loss".toList, some (mkRat 11 5)⟩] =
      countReason ("Aux power consn".toList) [⟨"Aux power consn".toList, some 1⟩] :=
  claim_C7_amended.1 ("Aux power consn loss - 1.0 rs.cr\nStack loss 2.2".toList)
    ("Aux power consn".toList)
    [⟨"Aux power consn".toList, some 1⟩]
    [⟨"Aux power consn".toList, some 1⟩, ⟨"Stack loss".toList, some (mkRat 11 5)⟩]
    rfl rfl
    ⟨⟨"Aux power consn".toList, some 1⟩, by simp, by decide⟩

/-! # Number-token shape: a matched number always converts

Every fragment that parse_variable_charge, find_first_float,
parse_coal_sources and parse_reasons_breakup pass to float is (after comma
stripping) of the form sign, digits, optional point, digits — so the
conversion never raises.  The next lemmas prove this for the dedicated
number scanner; the engine-capture case follows later. -/

theorem digit_not_special (c : Char) (h : c.isDigit = true) :
    ¬ c = ',' ∧ ¬ c = '-' ∧ ¬ c = '+' ∧ ¬ c = '.' := by
  refine ⟨?_, ?_, ?_, ?_⟩ <;> intro h' <;> subst h' <;> exact absurd h (by decide)

theorem stripCommas_digits (a : List Char) (h : ∀ c ∈ a, c.isDigit = true) :
    stripCommas a = a := by
  apply List.filter_eq_self.mpr
  intro c hc
  simp [(digit_not_special c (h c hc)).1]

theorem stripCommas_digitsComma (a : List Char)
    (h : ∀ c ∈ a, (c.isDigit || c = ',') = true) :
    ∀ c ∈ stripCommas a, c.isDigit = true := by
  intro c hc
  rw [stripCommas, List.mem_filter] at hc
  have h1 := h c hc.1
  have h2 : ¬ c = ',' := by simpa using hc.2
  simpa [h2] using h1

theorem pyFloatOfBody_digits (neg : Bool) (body : List Char) (hne : ¬ body = [])
    (h : ∀ c ∈ body, c.isDigit = true) :
    (pyFloatOfBody neg body).isSome = true := by
  unfold pyFloatOfBody
  rw [takeWhile_all _ _ h, dropWhile_all _ _ h]
  dsimp only
  rw [if_neg (by simpa [List.isEmpty_iff] using hne)]
  rfl

theorem pyFloatOfBody_digits_dot (neg : Bool) (a frx : List Char)
    (hane : ¬ a = []) (ha : ∀ c ∈ a, c.isDigit = true)
    (hfrx : ∀ c ∈ frx, c.isDigit = true) :
    (pyFloatOfBody neg (a ++ '.' :: frx)).isSome = true := by
  unfold pyFloatOfBody
  rw [takeWhile_append_all _ _ _ ha, dropWhile_append_all _ _ _ ha]
  rw [show List.takeWhile Char.isDigit ('.' :: frx) = [] from by
    simp [List.takeWhile_cons]]
  rw [show List.dropWhile Char.isDigit ('.' :: frx) = '.' :: frx from by
    simp [List.dropWhile_cons]]
  dsimp only
  rw [if_pos rfl]
  rw [takeWhile_all _ _ hfrx, dropWhile_all _ _ hfrx]
  rw [if_neg (by simp)]
  rw [if_neg (by simp [List.isEmpty_iff, hane])]
  rfl

theorem pyFloat_shape (sgn : List Char) (d : Char) (ds dcs dotp frx : List Char)
    (hsgn : sgn = [] ∨ sgn = ['-'])
    (hd : d.isDigit = true)
    (hds : ∀ c ∈ ds, c.isDigit = true)
    (hdcs : ∀ c ∈ dcs, (c.isDigit || c = ',') = true)
    (hdot : dotp = [] ∨ dotp = ['.'])
    (hfrx : ∀ c ∈ frx, c.isDigit = true) :
    (pyFloat? (stripCommas (sgn ++ d :: (ds ++ dcs ++ dotp ++ frx)))).isSome = true := by
  obtain ⟨hd1, hd2, hd3, hd4⟩ := digit_not_special d hd
  have hstrip : stripCommas (sgn ++ d :: (ds ++ dcs ++ dotp ++ frx)) =
      sgn ++ d :: (ds ++ stripCommas dcs ++ dotp ++ frx) := by
    have hsg : stripCommas sgn = sgn := by
      rcases hsgn with h | h <;> subst h <;> rfl
    have hdot' : stripCommas dotp = dotp := by
      rcases hdot with h | h <;> subst h <;> rfl
    rw [show sgn ++ d :: (ds ++ dcs ++ dotp ++ frx) =
      sgn ++ ((d :: ds) ++ dcs ++ dotp ++ frx) from by simp]
    rw [stripCommas, List.filter_append, List.filter_append, List.filter_append,
      List.filter_append]
    rw [show (d :: ds).filter (fun c => !(c = ','))  = d :: ds from
      stripCommas_digits (d :: ds) (by
        intro c hc
        rcases List.mem_cons.mp hc with h | h
        · subst h; exact hd
        · exact hds c h)]
    rw [show frx.filter (fun c => !(c = ',')) = frx from stripCommas_digits frx hfrx]
    rw [show sgn.filter (fun c => !(c = ',')) = sgn from hsg]
    rw [show dotp.filter (fun c => !(c = ',')) = dotp from hdot']
    simp [stripCommas]
  rw [hstrip]
  have hdcs' : ∀ c ∈ stripCommas dcs, c.isDigit = true := stripCommas_digitsComma dcs hdcs
  have hsign : pySign (sgn ++ d :: (ds ++ stripCommas dcs ++ dotp ++ frx)) =
      (decide (sgn = ['-']), d :: (ds ++ stripCommas dcs ++ dotp ++ frx)) := by
    rcases hsgn with h | h <;> subst h
    · rw [List.nil_append]
      unfold pySign
      dsimp only
      rw [if_neg hd2, if_neg hd3]
      rfl
    · rfl
  rw [pyFloat?, hsign]
  rcases hdot with h | h <;> subst h
  · apply pyFloatOfBody_digits _ _ (by simp)
    intro c hc
    rcases List.mem_cons.mp hc with h | h
    · subst h; exact hd
    · simp only [List.append_nil, List.mem_append] at h
      rcases h with (h | h) | h
      · exact hds c h
      · exact hdcs' c h
      · exact hfrx c h
  · rw [show d :: (ds ++ stripCommas dcs ++ ['.'] ++ frx) =
      (d :: (ds ++ stripCommas dcs)) ++ '.' :: frx from by simp]
    apply pyFloatOfBody_digits_dot _ _ _ (by simp) _ hfrx
    intro c hc
    rcases List.mem_cons.mp hc with h | h
    · subst h; exact hd
    · rcases List.mem_append.mp h with h | h
      · exact hds c h
      · exact hdcs' c h

theorem grabNum_decomp (c : Char) (cs : List Char) (hc : c.isDigit = true) :
    ∃ ds dcs dotp frx, grabNum (c :: cs) = c :: (ds ++ dcs ++ dotp ++ frx) ∧
      (∀ x ∈ ds, x.isDigit = true) ∧
      (∀ x ∈ dcs, (x.isDigit || x = ',') = true) ∧
      (dotp = [] ∨ dotp = ['.']) ∧ (∀ x ∈ frx, x.isDigit = true) := by
  unfold grabNum
  dsimp only
  rw [show (c :: cs).takeWhile Char.isDigit = c :: cs.takeWhile Char.isDigit from by
    simp [List.takeWhile_cons, hc]]
  rw [show (c :: cs).dropWhile Char.isDigit = cs.dropWhile Char.isDigit from by
    simp [List.dropWhile_cons, hc]]
  have hds : ∀ x ∈ cs.takeWhile Char.isDigit, x.isDigit = true :=
    fun x hx => List.mem_takeWhile_imp hx
  have hmids : ∀ x ∈ (cs.dropWhile Char.isDigit).takeWhile
      (fun c => c.isDigit || c = ','), (x.isDigit || x = ',') = true :=
    fun x hx => by simpa using List.mem_takeWhile_imp hx
  cases hr2 : (cs.dropWhile Char.isDigit).dropWhile (fun c => c.isDigit || c = ',') with
  | nil =>
    refine ⟨cs.takeWhile Char.isDigit,
      (cs.dropWhile Char.isDigit).takeWhile (fun c => c.isDigit || c = ','),
      [], [], ?_, hds, hmids, Or.inl rfl, by simp⟩
    simp
  | cons x r3 =>
    by_cases hx : x = '.'
    · subst hx
      refine ⟨cs.takeWhile Char.isDigit,
        (cs.dropWhile Char.isDigit).takeWhile (fun c => c.isDigit || c = ','),
        ['.'], r3.takeWhile Char.isDigit, ?_, hds, hmids, Or.inr rfl,
        fun x hx => List.mem_takeWhile_imp hx⟩
      dsimp only
      rw [if_pos rfl]
      simp
    · refine ⟨cs.takeWhile Char.isDigit,
        (cs.dropWhile Char.isDigit).takeWhile (fun c => c.isDigit || c = ','),
        [], [], ?_, hds, hmids, Or.inl rfl, by simp⟩
      dsimp only
      rw [if_neg hx]
      simp

theorem firstNumTok_pyFloat (l : List Char) :
    ∀ tok, firstNumTok l = some tok →
    (pyFloat? (stripCommas tok)).isSome = true := by
  induction l with
  | nil => intro tok h; exact Option.noConfusion h
  | cons c rest ih =>
    intro tok h
    unfold firstNumTok at h
    by_cases hd : c.isDigit = true
    · rw [if_pos hd] at h
      injection h with h
      subst h
      obtain ⟨ds, dcs, dotp, frx, htok, h1, h2, h3, h4⟩ := grabNum_decomp c rest hd
      rw [htok]
      exact pyFloat_shape [] c ds dcs dotp frx (Or.inl rfl) hd h1 h2 h3 h4
    · rw [if_neg (by simpa using hd)] at h
      cases rest with
      | nil =>
        rw [if_neg (by simp)] at h
        exact ih tok h
      | cons d rest' =>
        dsimp only at h
        by_cases hm : (decide (c = '-') && d.isDigit) = true
        · rw [if_pos hm] at h
          injection h with h
          subst h
          have hdd : d.isDigit = true := by
            have h2 := hm
            simp only [Bool.and_eq_true] at h2
            exact h2.2
          obtain ⟨ds, dcs, dotp, frx, htok, h1, h2, h3, h4⟩ :=
            grabNum_decomp d rest' hdd
          rw [htok]
          exact pyFloat_shape ['-'] d ds dcs dotp frx (Or.inr rfl) hdd h1 h2 h3 h4
        · rw [if_neg hm] at h
          exact ih tok h

/-! # The line loop of parse_variable_charge: pure shadow and last-match-wins -/

theorem setNum_ok (cond : Bool) (line : List Char) (old : Option ℚ) :
    setNum cond line old = .ok (setNumP cond line old) := by
  cases cond with
  | false => rfl
  | true =>
    unfold setNum setNumP lineNumVal
    cases htok : firstNumTok line with
    | none => simp [htok]
    | some tok =>
      rcases Option.isSome_iff_exists.mp (firstNumTok_pyFloat line tok htok) with ⟨v, hv⟩
      simp [htok, hv, pyFloatE]
      rfl

theorem vcLineStep_ok (vc : VC) (line : List Char) :
    vcLineStep vc line = .ok (vcPure vc line) := by
  unfold vcLineStep vcPure
  simp only [setNum_ok, ebind_ok]
  rfl

theorem foldlM_vcLineStep (ls : List (List Char)) :
    ∀ v : VC, ls.foldlM vcLineStep v = .ok (ls.foldl vcPure v) := by
  induction ls with
  | nil => intro v; rfl
  | cons l rest ih =>
    intro v
    rw [List.foldlM_cons, vcLineStep_ok, ebind_ok, List.foldl_cons]
    exact ih (vcPure v l)

theorem foldl_vcPure_field (F : VC → Option ℚ) (cond : List Char → Bool)
    (hF : ∀ (vc : VC) (l : List Char),
      F (vcPure vc l) = setNumP (cond (toLowerL l)) l (F vc)) :
    ∀ (ls : List (List Char)) (v : VC),
    F (ls.foldl vcPure v) =
      ls.foldl (fun o l => setNumP (cond (toLowerL l)) l o) (F v) := by
  intro ls
  induction ls with
  | nil => intro v; rfl
  | cons l rest ih =>
    intro v
    rw [List.foldl_cons, List.foldl_cons, ← hF]
    exact ih (vcPure v l)

theorem getLast?_cons_elim {α : Type} (v : α) (xs : List α) :
    (v :: xs).getLast? =
      match xs.getLast? with | some w => some w | none => some v := by
  cases xs with
  | nil => rfl
  | cons x r =>
    rw [List.getLast?_cons_cons]
    cases h : (x :: r).getLast? with
    | none => exact absurd (List.getLast?_eq_none_iff.mp h) (by simp)
    | some w => rfl

theorem foldl_setNumP_last (cond : List Char → Bool) (ls : List (List Char)) :
    ∀ init : Option ℚ,
    ls.foldl (fun o l => setNumP (cond (toLowerL l)) l o) init =
      match (ls.filterMap
        (fun l => if cond (toLowerL l) then lineNumVal l else none)).getLast? with
      | some v => some v
      | none => init := by
  induction ls with
  | nil => intro init; rfl
  | cons l rest ih =>
    intro init
    rw [List.foldl_cons, List.filterMap_cons]
    by_cases hc : cond (toLowerL l) = true
    · rw [if_pos hc]
      cases hv : lineNumVal l with
      | none =>
        rw [show setNumP (cond (toLowerL l)) l init = init from by
          simp [setNumP, hc, hv]]
        exact ih init
      | some v =>
        rw [show setNumP (cond (toLowerL l)) l init = some v from by
          simp [setNumP, hc, hv]]
        rw [ih (some v), getLast?_cons_elim]
        cases hlast : (rest.filterMap
          (fun l => if cond (toLowerL l) then lineNumVal l else none)).getLast? <;>
          rfl
    · rw [if_neg hc]
      rw [show setNumP (cond (toLowerL l)) l init = init from by simp [setNumP, hc]]
      dsimp only
      exact ih init

theorem linePass_field_last (cond : List Char → Bool) (F : VC → Option ℚ)
    (hF : ∀ (vc : VC) (l : List Char),
      F (vcPure vc l) = setNumP (cond (toLowerL l)) l (F vc))
    (hFinit : F vc0 = none) (text : List Char) :
    F (linePassVC text) =
      match (vcCands cond text).getLast? with
      | some v => some v
      | none => none := by
  unfold linePassVC vcCands
  rw [foldl_vcPure_field F cond hF, hFinit, foldl_setNumP_last]

theorem ebind_inv {ε α β : Type} (e : Except ε α) (f : α → Except ε β) (b : β)
    (h : (e >>= f) = .ok b) : ∃ a, e = .ok a ∧ f a = .ok b := by
  cases e with
  | ok a => exact ⟨a, rfl, h⟩
  | error err => exact Except.noConfusion h

/-- The structural inverse of parse_variable_charge: how each final field is
determined by the line pass and the fallbacks. -/
theorem parse_vc_inv (text : List Char) (vc : VC)
    (h : parse_variable_charge text = .ok vc) :
    (∀ v, (linePassVC text).merc_order = some v → vc.merc_order = some v) ∧
    ((linePassVC text).merc_order = none →
      find_first_float [patVCmerc] text = .ok vc.merc_order) ∧
    (∀ v, (linePassVC text).recoverable_mod = some v → vc.recoverable_mod = some v) ∧
    ((linePassVC text).recoverable_mod = none →
      find_first_float [patVCrecov] text = .ok vc.recoverable_mod) ∧
    (∀ v, (linePassVC text).actual = some v → vc.actual = some v) ∧
    ((linePassVC text).actual = none →
      find_first_float [patVCactualA, patVCactualB] text = .ok vc.actual) ∧
    (∀ v, (linePassVC text).disallowance_rs_cr = some v →
      vc.disallowance_rs_cr = some v) ∧
    ((linePassVC text).disallowance_rs_cr = none → rsearch patDisallow text = none →
      vc.disallowance_rs_cr = none) ∧
    vc.unrecoverable_rpkwh = (linePassVC text).unrecoverable_rpkwh := by
  unfold parse_variable_charge at h
  rw [foldlM_vcLineStep, ebind_ok] at h
  rw [show (pySplitlines text).foldl vcPure vc0 = linePassVC text from rfl] at h
  obtain ⟨m, hA, h⟩ := ebind_inv _ _ _ h
  obtain ⟨r, hB, h⟩ := ebind_inv _ _ _ h
  obtain ⟨a, hC, h⟩ := ebind_inv _ _ _ h
  obtain ⟨d, hD, h⟩ := ebind_inv _ _ _ h
  have hvc : vc = ⟨m, r, a, d, (linePassVC text).unrecoverable_rpkwh⟩ := by
    have h' : Except.ok (ε := Unit)
        (⟨m, r, a, d, (linePassVC text).unrecoverable_rpkwh⟩ : VC) = .ok vc := h
    injection h' with h'
    exact h'.symm
  subst hvc
  refine ⟨?_, ?_, ?_, ?_, ?_, ?_, ?_, ?_, rfl⟩
  · intro v hv
    rw [hv] at hA
    injection hA with hA
    exact hA.symm
  · intro hv
    rw [hv] at hA
    exact hA
  · intro v hv
    rw [hv] at hB
    injection hB with hB
    exact hB.symm
  · intro hv
    rw [hv] at hB
    exact hB
  · intro v hv
    rw [hv] at hC
    injection hC with hC
    exact hC.symm
  · intro hv
    rw [hv] at hC
    exact hC
  · intro v hv
    rw [hv] at hD
    injection hD with hD
    exact hD.symm
  · intro hv hs
    rw [hv, hs] at hD
    injection hD with hD
    exact hD.symm

/-! # C4 -/

/-- Counterexample to C4: with two lines both satisfying the MERC keyword
condition and carrying the first numeric literals 1.0 then 2.0, the parser
returns 2.0 — the loop of app.py lines 63 to 67 overwrites on every
satisfying line, so the last satisfying match wins, not the first as the
claim states. -/
theorem claim_C4_cex :
    parse_variable_charge
      ("variable charge merc 1.0\nvariable charge merc 2.0".toList) =
      .ok ⟨some 2, none, none, none, none⟩ ∧
    (vcCands vcCondMerc
      ("variable charge merc 1.0\nvariable charge merc 2.0".toList)).head? = some 1 ∧
    (vcCands vcCondMerc
      ("variable charge merc 1.0\nvariable charge merc 2.0".toList)).getLast? = some 2 ∧
    ¬ ((2 : ℚ) = 1) :=
  ⟨rfl, rfl, rfl, by norm_num⟩

/-- C4 as amended: for each variable-charge sub-field, when at least one
line satisfies the field's keyword condition and carries a numeric literal,
the extracted value is the first signed decimal literal (with thousands
separators stripped) of the last such line — later matches overwrite
earlier ones rather than being ignored or aggregated. -/
theorem claim_C4_amended (text : List Char) (vc : VC)
    (h : parse_variable_charge text = .ok vc) :
    (¬ vcCands vcCondMerc text = [] →
      vc.merc_order = (vcCands vcCondMerc text).getLast?) ∧
    (¬ vcCands vcCondRecov text = [] →
      vc.recoverable_mod = (vcCands vcCondRecov text).getLast?) ∧
    (¬ vcCands vcCondActual text = [] →
      vc.actual = (vcCands vcCondActual text).getLast?) ∧
    (¬ vcCands vcCondDis text = [] →
      vc.disallowance_rs_cr = (vcCands vcCondDis text).getLast?) ∧
    (¬ vcCands vcCondUnrec text = [] →
      vc.unrecoverable_rpkwh = (vcCands vcCondUnrec text).getLast?) := by
  have hinv := parse_vc_inv text vc h
  have hm := linePass_field_last vcCondMerc VC.merc_order (fun _ _ => rfl) rfl text
  have hr := linePass_field_last vcCondRecov VC.recoverable_mod (fun _ _ => rfl) rfl text
  have ha := linePass_field_last vcCondActual VC.actual (fun _ _ => rfl) rfl text
  have hd := linePass_field_last vcCondDis VC.disallowance_rs_cr (fun _ _ => rfl) rfl text
  have hu := linePass_field_last vcCondUnrec VC.unrecoverable_rpkwh
    (fun _ _ => rfl) rfl text
  refine ⟨?_, ?_, ?_, ?_, ?_⟩
  · intro hne
    rcases Option.isSome_iff_exists.mp (List.getLast?_isSome.mpr hne) with ⟨w, hw⟩
    rw [hw]
    exact hinv.1 w (by rw [hm, hw])
  · intro hne
    rcases Option.isSome_iff_exists.mp (List.getLast?_isSome.mpr hne) with ⟨w, hw⟩
    rw [hw]
    exact hinv.2.2.1 w (by rw [hr, hw])
  · intro hne
    rcases Option.isSome_iff_exists.mp (List.getLast?_isSome.mpr hne) with ⟨w, hw⟩
    rw [hw]
    exact hinv.2.2.2.2.1 w (by rw [ha, hw])
  · intro hne
    rcases Option.isSome_iff_exists.mp (List.getLast?_isSome.mpr hne) with ⟨w, hw⟩
    rw [hw]
    exact hinv.2.2.2.2.2.2.1 w (by rw [hd, hw])
  · intro hne
    rcases Option.isSome_iff_exists.mp (List.getLast?_isSome.mpr hne) with ⟨w, hw⟩
    rw [hw, hinv.2.2.2.2.2.2.2.2, hu, hw]

/-- Witness for C4 as amended: on the two-line MERC text the extracted value
is the last candidate. -/
theorem claim_C4_amended_witness :
    (⟨some 2, none, none, none, none⟩ : VC).merc_order =
      (vcCands vcCondMerc
        ("variable charge merc 1.0\nvariable charge merc 2.0".toList)).getLast? :=
  (claim_C4_amended ("variable charge merc 1.0\nvariable charge merc 2.0".toList)
    ⟨some 2, none, none, none, none⟩ rfl).1
    (by
      rw [show vcCands vcCondMerc
        ("variable charge merc 1.0\nvariable charge merc 2.0".toList) =
        [1, 2] from rfl]
      simp)

/-! # C5 -/

/-- C5: per-sub-field precedence in parse_variable_charge — a line-keyword
match is used first; only when the line pass leaves the field empty is the
fallback whole-text search's value used; and when both fail the field is
null.  When a line-level value and a fallback value are both present, the
line-level one wins (the witness exhibits conflicting candidates). -/
theorem claim_C5 (text : List Char) (vc : VC)
    (h : parse_variable_charge text = .ok vc) :
    (∀ v, (linePassVC text).merc_order = some v → vc.merc_order = some v) ∧
    ((linePassVC text).merc_order = none →
      find_first_float [patVCmerc] text = .ok vc.merc_order) ∧
    ((linePassVC text).merc_order = none →
      find_first_float [patVCmerc] text = .ok none → vc.merc_order = none) ∧
    (∀ v, (linePassVC text).recoverable_mod = some v →
      vc.recoverable_mod = some v) ∧
    ((linePassVC text).recoverable_mod = none →
      find_first_float [patVCrecov] text = .ok vc.recoverable_mod) ∧
    (∀ v, (linePassVC text).actual = some v → vc.actual = some v) ∧
    ((linePassVC text).actual = none →
      find_first_float [patVCactualA, patVCactualB] text = .ok vc.actual) ∧
    (∀ v, (linePassVC text).disallowance_rs_cr = some v →
      vc.disallowance_rs_cr = some v) ∧
    ((linePassVC text).disallowance_rs_cr = none →
      rsearch patDisallow text = none → vc.disallowance_rs_cr = none) := by
  have hinv := parse_vc_inv text vc h
  refine ⟨hinv.1, hinv.2.1, ?_, hinv.2.2.1, hinv.2.2.2.1, hinv.2.2.2.2.1,
    hinv.2.2.2.2.2.1, hinv.2.2.2.2.2.2.1, hinv.2.2.2.2.2.2.2.1⟩
  intro h1 h2
  have h3 := (hinv.2.1 h1).symm.trans h2
  injection h3 with h3

/-- Witness for C5: on a text whose last satisfying line yields 9.9 while
the fallback whole-text pattern would yield 7.7, the primary value 9.9
wins even though the fallback candidate is present and different. -/
theorem claim_C5_witness :
    (⟨some (mkRat 99 10), none, none, none, none⟩ : VC).merc_order =
      some (mkRat 99 10) ∧
    find_first_float [patVCmerc]
      ("variable charge merc rs/kwh: 7.7\nvariable charge merc 9.9".toList) =
      .ok (some (mkRat 77 10)) ∧
    ¬ (mkRat 99 10 = mkRat 77 10) :=
  ⟨(claim_C5 ("variable charge merc rs/kwh: 7.7\nvariable charge merc 9.9".toList)
      ⟨some (mkRat 99 10), none, none, none, none⟩ rfl).1 (mkRat 99 10) rfl,
   rfl, by norm_num [Rat.mkRat_eq_div]⟩

/-! # Soundness of the matcher's captures

The only engine captures the source ever converts with float are captures
of the signed-number token run.  The lemmas below show that any such
capture, in any successful search of a pattern of the form
pre ++ gopen n :: (numRun ++ gclose n :: post) where post closes no group n,
is a character string matched by the run — hence convertible. -/

theorem orElse_eq_some {α : Type} (x : Option α) (y : Unit → Option α) (r : α)
    (h : Option.orElse x y = some r) : x = some r ∨ (x = none ∧ y () = some r) := by
  cases x with
  | none => exact Or.inr ⟨rfl, h⟩
  | some v => exact Or.inl h

theorem findSome?_mem {α β : Type} (f : α → Option β) (l : List α) (b : β)
    (h : l.findSome? f = some b) : ∃ a ∈ l, f a = some b := by
  induction l with
  | nil => exact Option.noConfusion h
  | cons x xs ih =>
    rw [List.findSome?_cons] at h
    cases hf : f x with
    | some v =>
      rw [hf] at h
      exact ⟨x, by simp, hf.trans h⟩
    | none =>
      rw [hf] at h
      obtain ⟨a, ha, hfa⟩ := ih h
      exact ⟨a, by simp [ha], hfa⟩

theorem take_of_takeWhile (p : Char → Bool) (l : List Char) (j : ℕ)
    (hj : j ≤ (l.takeWhile p).length) : ∀ c ∈ l.take j, p c = true := by
  intro c hc
  have h1 : l.take j = (l.takeWhile p).take j := by
    conv_lhs => rw [← @List.takeWhile_append_dropWhile Char p l]
    exact List.take_append_of_le_length hj
  rw [h1] at hc
  exact List.mem_takeWhile_imp (List.take_subset j (l.takeWhile p) hc)

theorem RMatch_star_prepend {cc : CC} {g : Bool} {ts : List Tok} (a : List Char)
    {b : List Char} (ha : ∀ c ∈ a, cc.test c = true)
    (hb : RMatch (.star cc g :: ts) b) : RMatch (.star cc g :: ts) (a ++ b) := by
  induction a with
  | nil => simpa using hb
  | cons c r ih =>
    exact RMatch.starCons (ha c (by simp))
      (ih (fun x hx => ha x (by simp [hx])))

theorem alook_append_not {α : Type} (a b : List (ℕ × α)) (n : ℕ)
    (h : ∀ q ∈ a, ¬ q.1 = n) : alook (a ++ b) n = alook b n := by
  induction a with
  | nil => rfl
  | cons q rest ih =>
    obtain ⟨k, v⟩ := q
    rw [List.cons_append, alook, if_neg (h (k, v) (by simp))]
    exact ih (fun q hq => h q (by simp [hq]))

/-- Any success of a concatenated pattern factors through some intermediate
state after the prefix, and the new captures close only the prefix's
groups. -/
theorem mtch_decompose (p : List Tok) : ∀ (k : List Tok) (rest : List Char)
    (os caps : Caps) (res : List Char × Caps),
    mtch (p ++ k) rest os caps = some res →
    ∃ rest' os' nc, (∀ q ∈ nc, q.1 ∈ gcloseIdxs p) ∧
      mtch k rest' os' (nc ++ caps) = some res := by
  induction p with
  | nil =>
    intro k rest os caps res h
    exact ⟨rest, os, [], by simp, h⟩
  | cons t p' ih =>
    intro k rest os caps res h
    rw [List.cons_append] at h
    cases t with
    | one cc =>
      cases rest with
      | nil => rw [mtch] at h; exact Option.noConfusion h
      | cons c r =>
        rw [mtch] at h
        by_cases hc : cc.test c = true
        · rw [if_pos hc] at h
          exact ih k r os caps res h
        · rw [if_neg hc] at h
          exact Option.noConfusion h
    | opt cc =>
      cases rest with
      | nil =>
        rw [mtch] at h
        exact ih k [] os caps res h
      | cons c r =>
        rw [mtch] at h
        by_cases hc : cc.test c = true
        · rw [if_pos hc] at h
          rcases orElse_eq_some _ _ _ h with h1 | ⟨_, h1⟩
          · exact ih k r os caps res h1
          · exact ih k (c :: r) os caps res h1
        · rw [if_neg hc] at h
          exact ih k (c :: r) os caps res h
    | star cc g =>
      rw [mtch] at h
      obtain ⟨j, _, hj⟩ := findSome?_mem _ _ _ h
      exact ih k (rest.drop j) os caps res hj
    | gopen n =>
      rw [mtch] at h
      exact ih k rest ((n, rest) :: os) caps res h
    | gclose n =>
      rw [mtch] at h
      cases ho : alook os n with
      | none => rw [ho] at h; exact Option.noConfusion h
      | some ro =>
        rw [ho] at h
        obtain ⟨rest', os', nc, hnc, hm⟩ := ih k rest os
          ((n, ro.take (ro.length - rest.length)) :: caps) res h
        refine ⟨rest', os', nc ++ [(n, ro.take (ro.length - rest.length))], ?_, ?_⟩
        · intro q hq
          rcases List.mem_append.mp hq with hq | hq
          · exact List.mem_cons_of_mem _ (hnc q hq)
          · rw [List.mem_singleton.mp hq]
            exact List.mem_cons_self _ _
        · rw [List.append_assoc]
          exact hm
    | endA =>
      rw [mtch] at h
      by_cases he : rest = [] ∨ rest = ['\n']
      · rw [if_pos he] at h
        exact ih k rest os caps res h
      · rw [if_neg he] at h
        exact Option.noConfusion h

/-- A success only ever extends the capture list, closing groups of the
pattern. -/
theorem mtch_caps_suffix (ts : List Tok) : ∀ (rest : List Char) (os caps : Caps)
    (res : List Char × Caps), mtch ts rest os caps = some res →
    ∃ nc, res.2 = nc ++ caps ∧ ∀ q ∈ nc, q.1 ∈ gcloseIdxs ts := by
  induction ts with
  | nil =>
    intro rest os caps res h
    rw [mtch] at h
    injection h with h
    exact ⟨[], by rw [← h]; simp, by simp⟩
  | cons t ts' ih =>
    intro rest os caps res h
    cases t with
    | one cc =>
      cases rest with
      | nil => rw [mtch] at h; exact Option.noConfusion h
      | cons c r =>
        rw [mtch] at h
        by_cases hc : cc.test c = true
        · rw [if_pos hc] at h
          exact ih r os caps res h
        · rw [if_neg hc] at h
          exact Option.noConfusion h
    | opt cc =>
      cases rest with
      | nil =>
        rw [mtch] at h
        exact ih [] os caps res h
      | cons c r =>
        rw [mtch] at h
        by_cases hc : cc.test c = true
        · rw [if_pos hc] at h
          rcases orElse_eq_some _ _ _ h with h1 | ⟨_, h1⟩
          · exact ih r os caps res h1
          · exact ih (c :: r) os caps res h1
        · rw [if_neg hc] at h
          exact ih (c :: r) os caps res h
    | star cc g =>
      rw [mtch] at h
      obtain ⟨j, _, hj⟩ := findSome?_mem _ _ _ h
      exact ih (rest.drop j) os caps res hj
    | gopen n =>
      rw [mtch] at h
      exact ih rest ((n, rest) :: os) caps res h
    | gclose n =>
      rw [mtch] at h
      cases ho : alook os n with
      | none => rw [ho] at h; exact Option.noConfusion h
      | some ro =>
        rw [ho] at h
        obtain ⟨nc, hres, hnc⟩ := ih rest os
          ((n, ro.take (ro.length - rest.length)) :: caps) res h
        refine ⟨nc ++ [(n, ro.take (ro.length - rest.length))], ?_, ?_⟩
        · rw [hres, List.append_assoc]
          rfl
        · intro q hq
          rcases List.mem_append.mp hq with hq | hq
          · exact List.mem_cons_of_mem _ (hnc q hq)
          · rw [List.mem_singleton.mp hq]
            exact List.mem_cons_self _ _
    | endA =>
      rw [mtch] at h
      by_cases he : rest = [] ∨ rest = ['\n']
      · rw [if_pos he] at h
        exact ih rest os caps res h
      · rw [if_neg he] at h
        exact Option.noConfusion h

/-- A success of a class-token run followed by a continuation consumes a
block of characters matched by the run and hands the rest, with unchanged
group state, to the continuation. -/
theorem runSound (run : List Tok) (hrun : ∀ t ∈ run, classTok t = true)
    (k : List Tok) : ∀ (rest : List Char) (os caps : Caps)
    (res : List Char × Caps),
    mtch (run ++ k) rest os caps = some res →
    ∃ pre rest', rest = pre ++ rest' ∧ RMatch run pre ∧
      mtch k rest' os caps = some res := by
  induction run with
  | nil =>
    intro rest os caps res h
    exact ⟨[], rest, rfl, RMatch.nil, h⟩
  | cons t run' ih =>
    intro rest os caps res h
    have hrun' : ∀ t ∈ run', classTok t = true :=
      fun t ht => hrun t (by simp [ht])
    rw [List.cons_append] at h
    cases t with
    | one cc =>
      cases rest with
      | nil => rw [mtch] at h; exact Option.noConfusion h
      | cons c r =>
        rw [mtch] at h
        by_cases hc : cc.test c = true
        · rw [if_pos hc] at h
          obtain ⟨pre, rest', hr, hR, hm⟩ := ih hrun' r os caps res h
          exact ⟨c :: pre, rest', by rw [hr]; rfl, RMatch.one hc hR, hm⟩
        · rw [if_neg hc] at h
          exact Option.noConfusion h
    | opt cc =>
      cases rest with
      | nil =>
        rw [mtch] at h
        obtain ⟨pre, rest', hr, hR, hm⟩ := ih hrun' [] os caps res h
        exact ⟨pre, rest', hr, RMatch.optN hR, hm⟩
      | cons c r =>
        rw [mtch] at h
        by_cases hc : cc.test c = true
        · rw [if_pos hc] at h
          rcases orElse_eq_some _ _ _ h with h1 | ⟨_, h1⟩
          · obtain ⟨pre, rest', hr, hR, hm⟩ := ih hrun' r os caps res h1
            exact ⟨c :: pre, rest', by rw [hr]; rfl, RMatch.optY hc hR, hm⟩
          · obtain ⟨pre, rest', hr, hR, hm⟩ := ih hrun' (c :: r) os caps res h1
            exact ⟨pre, rest', hr, RMatch.optN hR, hm⟩
        · rw [if_neg hc] at h
          obtain ⟨pre, rest', hr, hR, hm⟩ := ih hrun' (c :: r) os caps res h
          exact ⟨pre, rest', hr, RMatch.optN hR, hm⟩
    | star cc g =>
      simp only [mtch] at h
      obtain ⟨j, hjmem, hj⟩ := findSome?_mem _ _ _ h
      have hjle : j ≤ (rest.takeWhile cc.test).length := by
        have hmem : j ∈ List.range ((rest.takeWhile cc.test).length + 1) := by
          cases g with
          | false => simpa using hjmem
          | true => exact List.mem_reverse.mp (by simpa using hjmem)
        have := List.mem_range.mp hmem
        omega
      obtain ⟨pre, rest', hr, hR, hm⟩ := ih hrun' (rest.drop j) os caps res hj
      refine ⟨rest.take j ++ pre, rest', ?_, ?_, hm⟩
      · rw [List.append_assoc, ← hr, List.take_append_drop]
      · exact RMatch_star_prepend (rest.take j)
          (take_of_takeWhile cc.test rest j hjle) (RMatch.starNil hR)
    | gopen n => exact absurd (hrun (Tok.gopen n) (by simp)) (by simp [classTok])
    | gclose n => exact absurd (hrun (Tok.gclose n) (by simp)) (by simp [classTok])
    | endA => exact absurd (hrun Tok.endA (by simp)) (by simp [classTok])

theorem RMatch_nil_inv {s : List Char} (h : RMatch [] s) : s = [] := by
  cases h
  rfl

theorem RMatch_one_inv {cc : CC} {ts : List Tok} {s : List Char}
    (h : RMatch (.one cc :: ts) s) :
    ∃ c s', s = c :: s' ∧ cc.test c = true ∧ RMatch ts s' := by
  cases h with
  | one hc hr => exact ⟨_, _, rfl, hc, hr⟩

theorem RMatch_opt_inv {cc : CC} {ts : List Tok} {s : List Char}
    (h : RMatch (.opt cc :: ts) s) :
    (∃ c s', s = c :: s' ∧ cc.test c = true ∧ RMatch ts s') ∨ RMatch ts s := by
  cases h with
  | optY hc hr => exact Or.inl ⟨_, _, rfl, hc, hr⟩
  | optN hr => exact Or.inr hr

theorem RMatch_star_inv_aux {cc : CC} {g : Bool} {ts : List Tok}
    (pat : List Tok) (s : List Char) (h : RMatch pat s) :
    pat = Tok.star cc g :: ts →
    ∃ a b, s = a ++ b ∧ (∀ c ∈ a, cc.test c = true) ∧ RMatch ts b := by
  induction h with
  | nil => intro hp; exact absurd hp (by simp)
  | one hc hr ih =>
    intro hp
    injection hp with h1 _
    exact Tok.noConfusion h1
  | optY hc hr ih =>
    intro hp
    injection hp with h1 _
    exact Tok.noConfusion h1
  | optN hr ih =>
    intro hp
    injection hp with h1 _
    exact Tok.noConfusion h1
  | starNil hr =>
    intro hp
    injection hp with h1 h2
    injection h1 with hcc hg
    subst h2
    exact ⟨[], _, rfl, by simp, hr⟩
  | starCons hc hr ih =>
    intro hp
    obtain ⟨a, b, hab, hall, hb⟩ := ih hp
    injection hp with h1 h2
    injection h1 with hcc hg
    subst hcc
    refine ⟨_ :: a, b, by rw [hab]; rfl, ?_, hb⟩
    intro x hx
    rcases List.mem_cons.mp hx with hx | hx
    · rw [hx]; exact hc
    · exact hall x hx

theorem RMatch_star_inv {cc : CC} {g : Bool} {ts : List Tok} (s : List Char)
    (h : RMatch (.star cc g :: ts) s) :
    ∃ a b, s = a ++ b ∧ (∀ c ∈ a, cc.test c = true) ∧ RMatch ts b :=
  RMatch_star_inv_aux _ s h rfl

/-- Any character string matched by the signed-number token run converts
with float after comma stripping. -/
theorem RMatch_numTail_shape (sgn : List Char) (hsgn : sgn = [] ∨ sgn = ['-'])
    (s : List Char)
    (h : RMatch [Tok.one CC.digit, Tok.star CC.digit true,
      Tok.star CC.digitComma true, Tok.opt (CC.lit '.'),
      Tok.star CC.digit true] s) :
    (pyFloat? (stripCommas (sgn ++ s))).isSome = true := by
  obtain ⟨d, s1, hs, hd, h1⟩ := RMatch_one_inv h
  obtain ⟨ds, s2, hs1, hds, h2⟩ := RMatch_star_inv _ h1
  obtain ⟨dcs, s3, hs2, hdcs, h3⟩ := RMatch_star_inv _ h2
  rcases RMatch_opt_inv h3 with ⟨c, s4, hs3, hcdot, h4⟩ | h4
  · have hcd : c = '.' := of_decide_eq_true hcdot
    obtain ⟨frx, s5, hs4, hfrx, h5⟩ := RMatch_star_inv _ h4
    have hnil := RMatch_nil_inv h5
    subst hcd hnil hs4 hs3 hs2 hs1 hs
    have := pyFloat_shape sgn d ds dcs ['.'] frx hsgn hd hds hdcs (Or.inr rfl) hfrx
    simpa [List.append_assoc] using this
  · obtain ⟨frx, s4, hs3, hfrx, h5⟩ := RMatch_star_inv _ h4
    have hnil := RMatch_nil_inv h5
    subst hnil hs3 hs2 hs1 hs
    have := pyFloat_shape sgn d ds dcs [] frx hsgn hd hds hdcs (Or.inl rfl) hfrx
    simpa [List.append_assoc] using this

theorem RMatch_numRun_shape (s : List Char)
    (h : RMatch numRun s) : (pyFloat? (stripCommas s)).isSome = true := by
  unfold numRun at h
  rcases RMatch_opt_inv h with ⟨c, s1, hs, hc, h1⟩ | h1
  · have hcm : c = '-' := of_decide_eq_true hc
    subst hcm hs
    exact RMatch_numTail_shape ['-'] (Or.inr rfl) s1 h1
  · exact RMatch_numTail_shape [] (Or.inl rfl) s h1

/-- The central capture lemma: in any successful search of a pattern whose
group n wraps exactly the signed-number run and whose tail closes no group
n, the captured group n is a string matched by the run. -/
theorem capture_numRun (pre post : List Tok) (n : ℕ)
    (hpost : ¬ n ∈ gcloseIdxs post) (cs : List Char) (i : ℕ)
    (restAfter : List Char) (caps : Caps)
    (hsearch : rsearch (pre ++ Tok.gopen n :: (numRun ++ Tok.gclose n :: post)) cs =
      some (i, restAfter, caps)) :
    ∃ s, alook caps n = some s ∧ RMatch numRun s := by
  unfold rsearch at hsearch
  obtain ⟨st, _, hm⟩ := findSome?_mem _ _ _ hsearch
  cases hmm : mtch (pre ++ Tok.gopen n :: (numRun ++ Tok.gclose n :: post))
      (cs.drop st) [] [] with
  | none => rw [hmm] at hm; exact Option.noConfusion hm
  | some r =>
    rw [hmm] at hm
    injection hm with hm
    have hcapseq : r.2 = caps := congrArg (fun q => q.2.2) hm
    obtain ⟨rest1, os1, nc1, hnc1, hm1⟩ := mtch_decompose pre _ _ _ _ _ hmm
    rw [mtch] at hm1
    obtain ⟨s, rest2, hrest1, hR, hm2⟩ := runSound numRun (by decide) _ _ _ _ _ hm1
    rw [mtch] at hm2
    rw [show alook ((n, rest1) :: os1) n = some rest1 from by simp [alook]] at hm2
    dsimp only at hm2
    have hslice : rest1.take (rest1.length - rest2.length) = s := by
      rw [hrest1]
      simp [List.take_left]
    rw [hslice] at hm2
    obtain ⟨nc2, hcaps2, hnc2⟩ := mtch_caps_suffix post _ _ _ _ hm2
    refine ⟨s, ?_, hR⟩
    rw [← hcapseq, hcaps2,
      alook_append_not nc2 _ n (fun q hq he => hpost (he ▸ hnc2 q hq))]
    simp [alook]

/-! # C2 -/

theorem find_first_float_ok (pats : List (List Tok)) (text : List Char) :
    ∃ o, find_first_float pats text = .ok o := by
  induction pats with
  | nil => exact ⟨none, rfl⟩
  | cons pat ps ih =>
    rw [find_first_float]
    cases hs : rsearch pat text with
    | none => exact ih
    | some r =>
      obtain ⟨i, restAfter, caps⟩ := r
      dsimp only
      cases ht : firstNumTok (matchSlice text i restAfter) with
      | none => exact ih
      | some tok =>
        rcases Option.isSome_iff_exists.mp
          (firstNumTok_pyFloat (matchSlice text i restAfter) tok ht) with ⟨v, hv⟩
        refine ⟨some v, ?_⟩
        dsimp only
        rw [show pyFloatE (stripCommas tok) = .ok v from by rw [pyFloatE, hv]]
        rfl

theorem parse_variable_charge_ok (text : List Char) :
    ∃ vc, parse_variable_charge text = .ok vc := by
  unfold parse_variable_charge
  rw [foldlM_vcLineStep, ebind_ok]
  obtain ⟨m, hA⟩ : ∃ m, (match ((pySplitlines text).foldl vcPure vc0).merc_order with
      | some v => (pure (some v) : Except Unit (Option ℚ))
      | none => find_first_float [patVCmerc] text) = .ok m := by
    cases hm : ((pySplitlines text).foldl vcPure vc0).merc_order with
    | some v => exact ⟨some v, rfl⟩
    | none =>
      obtain ⟨o, ho⟩ := find_first_float_ok [patVCmerc] text
      exact ⟨o, ho⟩
  rw [hA, ebind_ok]
  obtain ⟨r, hB⟩ : ∃ r,
      (match ((pySplitlines text).foldl vcPure vc0).recoverable_mod with
      | some v => (pure (some v) : Except Unit (Option ℚ))
      | none => find_first_float [patVCrecov] text) = .ok r := by
    cases hm : ((pySplitlines text).foldl vcPure vc0).recoverable_mod with
    | some v => exact ⟨some v, rfl⟩
    | none =>
      obtain ⟨o, ho⟩ := find_first_float_ok [patVCrecov] text
      exact ⟨o, ho⟩
  rw [hB, ebind_ok]
  obtain ⟨a, hC⟩ : ∃ a, (match ((pySplitlines text).foldl vcPure vc0).actual with
      | some v => (pure (some v) : Except Unit (Option ℚ))
      | none => find_first_float [patVCactualA, patVCactualB] text) = .ok a := by
    cases hm : ((pySplitlines text).foldl vcPure vc0).actual with
    | some v => exact ⟨some v, rfl⟩
    | none =>
      obtain ⟨o, ho⟩ := find_first_float_ok [patVCactualA, patVCactualB] text
      exact ⟨o, ho⟩
  rw [hC, ebind_ok]
  obtain ⟨d, hD⟩ : ∃ d,
      (match ((pySplitlines text).foldl vcPure vc0).disallowance_rs_cr with
      | some v => (pure (some v) : Except Unit (Option ℚ))
      | none =>
        match rsearch patDisallow text with
        | some (_, _, caps) =>
          match alook caps 1 with
          | some g1 => (pyFloatE (stripCommas g1)).map some
          | none => pure none
        | none => pure none) = .ok d := by
    cases hm : ((pySplitlines text).foldl vcPure vc0).disallowance_rs_cr with
    | some v => exact ⟨some v, rfl⟩
    | none =>
      dsimp only
      cases hs : rsearch patDisallow text with
      | none => exact ⟨none, rfl⟩
      | some rr =>
        obtain ⟨i, ra, caps⟩ := rr
        obtain ⟨s, hlook, hR⟩ := capture_numRun patDisallowPre [] 1
          (by simp [gcloseIdxs]) text i ra caps hs
        rcases Option.isSome_iff_exists.mp (RMatch_numRun_shape s hR) with ⟨v, hv⟩
        refine ⟨some v, ?_⟩
        dsimp only
        rw [hlook]
        dsimp only
        rw [show pyFloatE (stripCommas s) = .ok v from by rw [pyFloatE, hv]]
        rfl
  rw [hD, ebind_ok]
  exact ⟨_, rfl⟩

theorem mapM_ok {α β : Type} (f : α → Except Unit β) (l : List α)
    (h : ∀ a ∈ l, ∃ b, f a = .ok b) : ∃ bs, l.mapM f = .ok bs := by
  induction l with
  | nil => exact ⟨[], rfl⟩
  | cons x xs ih =>
    obtain ⟨b, hb⟩ := h x (by simp)
    obtain ⟨bs, hbs⟩ := ih (fun a ha => h a (by simp [ha]))
    refine ⟨b :: bs, ?_⟩
    rw [List.mapM_cons, hb, ebind_ok, hbs, ebind_ok]
    rfl

theorem rfindIterAux_all {p : List Tok} {P : Caps → Prop}
    (hP : ∀ (cs : List Char) (i : ℕ) (ra : List Char) (caps : Caps),
      rsearch p cs = some (i, ra, caps) → P caps) :
    ∀ (fuel : ℕ) (cs : List Char) (caps : Caps),
    caps ∈ rfindIterAux p fuel cs → P caps := by
  intro fuel
  induction fuel with
  | zero =>
    intro cs caps h
    exact absurd h (by simp [rfindIterAux])
  | succ f ih =>
    intro cs caps h
    rw [rfindIterAux] at h
    cases hs : rsearch p cs with
    | none =>
      rw [hs] at h
      exact absurd h (by simp)
    | some r =>
      obtain ⟨i, ra, caps'⟩ := r
      rw [hs] at h
      dsimp only at h
      rcases List.mem_cons.mp h with h | h
      · rw [h]
        exact hP cs i ra caps' hs
      · exact ih _ _ h

theorem primaryReasons_ok (text : List Char) :
    ∃ rs, primaryReasons text = .ok rs := by
  unfold primaryReasons
  apply mapM_ok
  intro caps hcaps
  have hcap : ∃ s, alook caps 2 = some s ∧ RMatch numRun s :=
    @rfindIterAux_all patReasonPrimary
      (fun cps => ∃ s, alook cps 2 = some s ∧ RMatch numRun s)
      (fun cs i ra caps' hs =>
        capture_numRun patReasonPre patReasonPost 2 (by decide) cs i ra caps' hs)
      (text.length + 1) text caps hcaps
  obtain ⟨s, hlook, hR⟩ := hcap
  rcases Option.isSome_iff_exists.mp (RMatch_numRun_shape s hR) with ⟨v, hv⟩
  refine ⟨⟨pstrip ((alook caps 1).getD []), some v⟩, ?_⟩
  rw [hlook]
  dsimp only [Option.getD]
  rw [show pyFloatE (stripCommas s) = .ok v from by rw [pyFloatE, hv]]
  rfl

theorem secStep_ok (text : List Char) (rs : List Reason) (fr : List Char) :
    ∃ rs', secStep text rs fr = .ok rs' := by
  unfold secStep
  by_cases hc : (strIn (toLowerL fr) (toLowerL text) &&
      !(rs.any (fun r => strIn (toLowerL fr) (toLowerL r.reason)))) = true
  · rw [if_pos hc]
    cases hs : rsearch (patFR fr) text with
    | none =>
      refine ⟨rs ++ [⟨fr, none⟩], ?_⟩
      rfl
    | some r =>
      obtain ⟨i, ra, caps⟩ := r
      obtain ⟨s, hlook, hR⟩ := capture_numRun
        (fr.map (fun c => Tok.one (CC.litCI c)) ++ [Tok.star CC.dotAll false]) [] 1
        (by simp [gcloseIdxs]) text i ra caps hs
      rcases Option.isSome_iff_exists.mp (RMatch_numRun_shape s hR) with ⟨v, hv⟩
      refine ⟨rs ++ [⟨fr, some v⟩], ?_⟩
      dsimp only
      rw [hlook]
      dsimp only [Option.getD]
      rw [show pyFloatE (stripCommas s) = .ok v from by rw [pyFloatE, hv]]
      rfl
  · rw [if_neg hc]
    exact ⟨rs, rfl⟩

theorem foldlM_secStep_ok (text : List Char) (frs : List (List Char)) :
    ∀ rs, ∃ res, frs.foldlM (secStep text) rs = .ok res := by
  induction frs with
  | nil => intro rs; exact ⟨rs, rfl⟩
  | cons f rest ih =>
    intro rs
    obtain ⟨rs', h1⟩ := secStep_ok text rs f
    obtain ⟨res, h2⟩ := ih rs'
    exact ⟨res, by rw [List.foldlM_cons, h1, ebind_ok, h2]⟩

theorem parse_reasons_ok (text : List Char) :
    ∃ rs, parse_reasons_breakup text = .ok rs := by
  obtain ⟨prim, hp⟩ := primaryReasons_ok text
  obtain ⟨res, hr⟩ := foldlM_secStep_ok text fallback_reasons prim
  exact ⟨res, by unfold parse_reasons_breakup; rw [hp, ebind_ok, hr]⟩

/-- Counterexample to C2: parse_sp_coal raises outward.  On this text the
combined pattern's first capture is 1.2.3 (the capture class admits several
points), float raises ValueError, and the record's extraction aborts — the
whole save pipeline errors rather than degrading one sub-field to null. -/
theorem claim_C2_cex :
    parse_sp_coal "sp coal consumption allowable actual 1.2.3 4.5".toList =
      .error () ∧
    parse_variable_charge
      "sp coal consumption allowable actual 1.2.3 4.5".toList = .ok vc0 ∧
    build_record "sp coal consumption allowable actual 1.2.3 4.5".toList
      "KTPS".toList [] ⟨2025, 10, 1⟩ = .error () :=
  ⟨rfl, rfl, rfl⟩

/-- C2 as amended: parse_variable_charge and parse_reasons_breakup never
raise on numeric conversion for any input text — every fragment they pass to
float is a signed-number token whose conversion succeeds (and
parse_coal_sources guards its conversions with a try-except, so it is total
by construction).  parse_sp_coal is the exception the counterexample
exhibits: its combined-pattern captures go to float unguarded and can
raise, aborting both sp-coal fields. -/
theorem claim_C2_amended (text : List Char) :
    isOkE (parse_variable_charge text) = true ∧
    isOkE (parse_reasons_breakup text) = true := by
  obtain ⟨vc, hvc⟩ := parse_variable_charge_ok text
  obtain ⟨rs, hrs⟩ := parse_reasons_ok text
  rw [hvc, hrs]
  exact ⟨rfl, rfl⟩

end KTPS
